import Mathlib

/-!
Verification development for the fraud-scoring service: a shallow embedding of
the `FraudDetector` feature pipeline (`fraud_detection.py`) and of the
session registry / stream worker (`app.py`), with theorems about the
testable properties of the specification.

Cell values are modelled by `PVal` (string / rational / NaN / +inf / -inf),
a DataFrame by an ordered association list from column name to the list of
cell values of that column, and raised Python exceptions by `Except PyErr`.
-/

set_option maxRecDepth 20000

namespace FraudApp

/-- A pandas cell value: a string, a finite number, NaN, or a signed infinity. -/
inductive PVal where
  | str (s : String)
  | num (q : ℚ)
  | nan
  | inf
  | ninf
deriving DecidableEq, Repr

/-- Python exceptions that the modelled code can raise. -/
inductive PyErr where
  | keyError (k : String)
  | typeError
  | valueError
  | indexError
deriving DecidableEq, Repr

/-- First-match association-list lookup (dict / column lookup). -/
def lookupA {κ α : Type} [DecidableEq κ] : List (κ × α) → κ → Option α
  | [], _ => none
  | p :: ps, k => if p.1 = k then some p.2 else lookupA ps k

/-- A DataFrame: ordered columns, each a name together with its cells. -/
abbrev DF := List (String × List PVal)

def getCol (df : DF) (c : String) : Option (List PVal) := lookupA df c

def hasCol (df : DF) (c : String) : Bool := (getCol df c).isSome

/-- `df[c] = cells`: replace the column in place if present, else append it. -/
def setCol (df : DF) (c : String) (cells : List PVal) : DF :=
  if hasCol df c then df.map (fun p => if p.1 = c then (c, cells) else p)
  else df ++ [(c, cells)]

/-- Number of rows of a DataFrame (length of its first column). -/
def nRows (df : DF) : Nat :=
  match df with
  | [] => 0
  | p :: _ => p.2.length

/-- `df[c]` where a missing column raises `KeyError`. -/
def requireCol (df : DF) (c : String) : Except PyErr (List PVal) :=
  match getCol df c with
  | some cells => Except.ok cells
  | none => Except.error (PyErr.keyError c)

/-- `.fillna('MISSING').astype(str)` applied to one cell. -/
def toStrMissing : PVal → String
  | PVal.nan => "MISSING"
  | PVal.str s => s
  | PVal.num q => toString q
  | PVal.inf => "inf"
  | PVal.ninf => "-inf"

/-- `.fillna(q)` applied to one cell. -/
def fillnaNum (q : ℚ) : PVal → PVal
  | PVal.nan => PVal.num q
  | v => v

def isStrCell : PVal → Bool
  | PVal.str _ => true
  | _ => false

/-- A column has pandas dtype `object` iff some cell of it is a string. -/
def isObjectCol (cells : List PVal) : Bool := cells.any isStrCell

/-- One card's historical statistics (the values of the per-card dict). -/
structure CardStat where
  mean : Option PVal
  std : Option PVal
deriving DecidableEq, Repr

/-- The artifact bundle loaded at startup: card statistics, categorical
columns, the ordinal encoder, the final column schema and the opaque model
(`predict_proba` returning the positive-class probability per row). -/
structure Artifacts where
  card_stats : List (PVal × CardStat)
  cat_cols : List String
  encoder : String → String → ℚ
  final_columns : List String
  predict_proba : DF → List ℚ

/-- `get_stat` of `FraudDetector.preprocess`: look the card id up in the
statistics table; an unknown card or a missing metric yields NaN. -/
def get_stat (card_stats : List (PVal × CardStat)) (card_id : PVal)
    (metric : CardStat → Option PVal) : PVal :=
  match lookupA card_stats card_id with
  | some st =>
    match metric st with
    | some v => v
    | none => PVal.nan
  | none => PVal.nan

/-- Float division of two cells, pandas style: division by zero produces a
signed infinity (or NaN for 0/0), NaN propagates, and a string operand
raises `TypeError`. -/
def pdivCell : PVal → PVal → Except PyErr PVal
  | PVal.str _, _ => Except.error PyErr.typeError
  | _, PVal.str _ => Except.error PyErr.typeError
  | PVal.nan, _ => Except.ok PVal.nan
  | _, PVal.nan => Except.ok PVal.nan
  | PVal.num a, PVal.num b =>
      Except.ok (if b = 0 then
          (if a = 0 then PVal.nan else if a > 0 then PVal.inf else PVal.ninf)
        else PVal.num (a / b))
  | PVal.num _, PVal.inf => Except.ok (PVal.num 0)
  | PVal.num _, PVal.ninf => Except.ok (PVal.num 0)
  | PVal.inf, PVal.num b => Except.ok (if b < 0 then PVal.ninf else PVal.inf)
  | PVal.ninf, PVal.num b => Except.ok (if b < 0 then PVal.inf else PVal.ninf)
  | PVal.inf, PVal.inf => Except.ok PVal.nan
  | PVal.inf, PVal.ninf => Except.ok PVal.nan
  | PVal.ninf, PVal.inf => Except.ok PVal.nan
  | PVal.ninf, PVal.ninf => Except.ok PVal.nan

/-- Elementwise division of two columns. -/
def zipDivide : List PVal → List PVal → Except PyErr (List PVal)
  | [], _ => Except.ok []
  | _ :: _, [] => Except.ok []
  | a :: xs, b :: ys =>
    match pdivCell a b with
    | Except.ok v =>
      match zipDivide xs ys with
      | Except.ok rest => Except.ok (v :: rest)
      | Except.error e => Except.error e
    | Except.error e => Except.error e

/-- `.replace([inf, -inf], -999).fillna(-999)` applied to one cell. -/
def cleanSentinel : PVal → PVal
  | PVal.inf => PVal.num (-999)
  | PVal.ninf => PVal.num (-999)
  | PVal.nan => PVal.num (-999)
  | v => v

/-- The distinct values already seen, in reverse first-occurrence order. -/
def seenDistinct (l : List String) : List String :=
  l.foldl (fun acc s => if s ∈ acc then acc else s :: acc) []

def countDistinct (l : List String) : Nat := (seenDistinct l).length

def idxOfFirst : List String → String → Nat
  | [], _ => 0
  | x :: xs, s => if x = s then 0 else idxOfFirst xs s + 1

/-- `pd.factorize`: each value is coded by the number of distinct values that
appear strictly before its first occurrence (first-appearance enumeration,
local to the call). -/
def factorize (l : List String) : List PVal :=
  l.map (fun s => PVal.num (countDistinct (l.take (idxOfFirst l s))))

/-- Encode one categorical column in place with the ordinal encoder
(`fillna('MISSING').astype(str)` then `encoder.transform`). -/
def encodeCol (A : Artifacts) (df : DF) (c : String) : DF :=
  match getCol df c with
  | some cells => setCol df c (cells.map (fun v => PVal.num (A.encoder c (toStrMissing v))))
  | none => df

/-- `df[cols]` presence check: the first missing column raises `KeyError`. -/
def checkCols (df : DF) : List String → Except PyErr Unit
  | [] => Except.ok ()
  | c :: cs =>
    match getCol df c with
    | some _ => checkCols df cs
    | none => Except.error (PyErr.keyError c)

/-- Step 4 of `preprocess`: the categorical columns are selected (raising
`KeyError` when one is absent) and re-assigned with their encoded values. -/
def encodeCats (A : Artifacts) (df : DF) : Except PyErr DF :=
  match checkCols df A.cat_cols with
  | Except.ok _ => Except.ok (A.cat_cols.foldl (encodeCol A) df)
  | Except.error e => Except.error e

/-- The loop over `df.select_dtypes(include=['object'])`: every column of
`object` dtype that is in the final schema is factorized in place. -/
def factorizeResiduals (finalCols : List String) (df : DF) : DF :=
  df.map (fun p =>
    if isObjectCol p.2 = true ∧ p.1 ∈ finalCols then
      (p.1, factorize (p.2.map toStrMissing))
    else p)

/-- Step 5, first half: any final column absent from the frame is created
with every cell `-999`. -/
def alignColumns (finalCols : List String) (n : Nat) (df : DF) : DF :=
  finalCols.foldl (fun d c =>
    if hasCol d c then d else setCol d c (List.replicate n (PVal.num (-999)))) df

/-- Step 5, second half: `df[final_columns].fillna(-999)` — select the final
columns in schema order and replace residual NaN by `-999`. -/
def selectColumns (df : DF) : List String → Except PyErr DF
  | [] => Except.ok []
  | c :: cs =>
    match getCol df c with
    | some cells =>
      match selectColumns df cs with
      | Except.ok rest => Except.ok ((c, cells.map (fillnaNum (-999))) :: rest)
      | Except.error e => Except.error e
    | none => Except.error (PyErr.keyError c)

/-- The engineered `uid1` column: card id and address concatenated with
`"_"`, each defaulted to `"MISSING"`. -/
def uid1Col (c1 a1 : List PVal) : List PVal :=
  List.zipWith (fun x y => PVal.str (toStrMissing x ++ "_" ++ toStrMissing y)) c1 a1

/-- The looked-up `card1_mean` column. -/
def meanCol (A : Artifacts) (c1 : List PVal) : List PVal :=
  c1.map (fun v => get_stat A.card_stats v CardStat.mean)

/-- The looked-up `card1_std` column. -/
def stdCol (A : Artifacts) (c1 : List PVal) : List PVal :=
  c1.map (fun v => get_stat A.card_stats v CardStat.std)

/-- Steps 2 and 3a of `preprocess`: add `uid1`, `card1_mean`, `card1_std`. -/
def withEngineered (A : Artifacts) (input : DF) (c1 a1 : List PVal) : DF :=
  setCol (setCol (setCol input "uid1" (uid1Col c1 a1)) "card1_mean" (meanCol A c1))
    "card1_std" (stdCol A c1)

/-- Step 3b of `preprocess`: add the two ratio columns, cleaned of
infinities and NaN (`replace([inf,-inf],-999).fillna(-999)`). -/
def withRatios (df2 : DF) (rm rs : List PVal) : DF :=
  setCol (setCol df2 "TransactionAmt_to_mean_card1" (rm.map cleanSentinel))
    "TransactionAmt_to_std_card1" (rs.map cleanSentinel)

/-- Step 5 of `preprocess`: factorize residual object columns of the final
schema, synthesize missing final columns as `-999`, then select
`final_columns` in order with residual NaN filled by `-999`. -/
def finalAlign (finalCols : List String) (df4 : DF) : Except PyErr DF :=
  selectColumns
    (alignColumns finalCols (nRows (factorizeResiduals finalCols df4))
      (factorizeResiduals finalCols df4))
    finalCols

/-- `FraudDetector.preprocess` on an already-constructed frame: engineer
`uid1`, look up the card statistics, build the two amount ratios, clean
non-finite ratios to `-999`, encode the categorical columns, factorize the
residual object columns that are in the final schema, synthesize missing
final columns as `-999`, and return exactly `final_columns` in order with
residual NaN filled by `-999`. -/
def preprocess (A : Artifacts) (input : DF) : Except PyErr DF :=
  match requireCol input "card1" with
  | Except.error e => Except.error e
  | Except.ok c1 =>
  match requireCol input "addr1" with
  | Except.error e => Except.error e
  | Except.ok a1 =>
  match requireCol (withEngineered A input c1 a1) "TransactionAmt" with
  | Except.error e => Except.error e
  | Except.ok amt =>
  match zipDivide amt (meanCol A c1) with
  | Except.error e => Except.error e
  | Except.ok rm =>
  match zipDivide amt (stdCol A c1) with
  | Except.error e => Except.error e
  | Except.ok rs =>
  match encodeCats A (withRatios (withEngineered A input c1 a1) rm rs) with
  | Except.error e => Except.error e
  | Except.ok df4 => finalAlign A.final_columns df4

/-- `pd.DataFrame([input_data])`: a single-record dict becomes a one-row frame. -/
def recordDF (r : List (String × PVal)) : DF := r.map (fun p => (p.1, [p.2]))

/-- Python `round` (banker's rounding) of a rational to an integer. -/
def roundHalfEven (q : ℚ) : ℤ :=
  let f := ⌊q⌋
  if q - f < 1/2 then f
  else if q - f > 1/2 then f + 1
  else if f % 2 = 0 then f else f + 1

/-- `round(prob, 4)`. -/
def round4 (q : ℚ) : ℚ := (roundHalfEven (q * 10000) : ℚ) / 10000

/-- `FraudDetector._get_risk_level`. -/
def get_risk_level (prob : ℚ) : String :=
  if prob > 0.8 then "CRITICAL"
  else if prob > 0.5 then "HIGH"
  else "LOW"

/-- The status expression of `FraudDetector.predict`. -/
def statusOf (prob : ℚ) : String := if prob > 0.5 then "DENY" else "APPROVE"

structure PredictionResult where
  fraud_probability : ℚ
  risk_level : String
  status : String
deriving DecidableEq, Repr

/-- `FraudDetector.predict`: preprocess, take the first row's positive-class
probability, and post-process it into a result. -/
def predictDetector (A : Artifacts) (input : DF) : Except PyErr PredictionResult :=
  match preprocess A input with
  | Except.error e => Except.error e
  | Except.ok processed =>
    match A.predict_proba processed with
    | [] => Except.error PyErr.indexError
    | prob :: _ =>
      Except.ok { fraud_probability := round4 prob,
                  risk_level := get_risk_level prob,
                  status := statusOf prob }

/-- The body of a `POST /predict` request as the route handler sees it. -/
inductive Payload where
  | notJson
  | emptyOrNonDict
  | record (r : List (String × PVal))

/-- The `/predict` route of `app.py`: non-JSON or empty/non-dict bodies give
400; a raised `ValueError` gives 422; any other exception gives 500;
success gives 200. -/
def predictRoute (A : Artifacts) (p : Payload) : Nat :=
  match p with
  | Payload.notJson => 400
  | Payload.emptyOrNonDict => 400
  | Payload.record r =>
    match predictDetector A (recordDF r) with
    | Except.ok _ => 200
    | Except.error PyErr.valueError => 422
    | Except.error _ => 500

/-! ### The session registry and stream worker of `app.py`

`active_streams`, `socket_to_visitor` and the socketio rooms are modelled as
association lists, a running background task (`stream_predictions`) as a
`WorkerState`, and the handlers as state transformers.  A run interleaves
`join_stream` / `disconnect` handler invocations with single loop iterations
of the workers; each emitted event records its audience (the members of the
target room at emit time).  `gen` is a bookkeeping generation counter that
identifies which created session an entry or worker belongs to; the code
itself never reads it. -/

/-- One entry of `active_streams`: subscriber sockets, status
(`"active"` / `"cleanup"`), and the creation generation. -/
structure StreamInfo where
  socket_ids : List String
  status : String
  gen : Nat
deriving DecidableEq, Repr

/-- One running `stream_predictions` task: its visitor id, the generation of
the session it was started for, and the index of the next source record. -/
structure WorkerState where
  vid : String
  gen : Nat
  idx : Nat
deriving DecidableEq, Repr

/-- An emitted socketio event: its name, target room (`""` for a direct
reply), the sockets it was delivered to, and optional record index /
total-count payload fields. -/
structure Event where
  name : String
  room : String
  audience : List String
  recIdx : Option Nat
  total : Option Nat
deriving DecidableEq, Repr

structure ServerState where
  active_streams : List (String × StreamInfo)
  socket_to_visitor : List (String × String)
  rooms : List (String × List String)
  workers : List WorkerState
  events : List Event
  nextGen : Nat
deriving DecidableEq, Repr

/-- The environment of a run: the artifact bundle and the finite transaction
source (`test_merged` rows as dicts). -/
structure Env where
  A : Artifacts
  src : List (List (String × PVal))

def initState : ServerState :=
  { active_streams := [], socket_to_visitor := [], rooms := [],
    workers := [], events := [], nextGen := 0 }

/-- Dict assignment `d[k] = v`: overwrite in place, else append. -/
def assocSet {α : Type} (l : List (String × α)) (k : String) (v : α) :
    List (String × α) :=
  if l.any (fun p => p.1 = k) then l.map (fun p => if p.1 = k then (k, v) else p)
  else l ++ [(k, v)]

/-- The sockets currently in a room. -/
def roomMembers (s : ServerState) (vid : String) : List String :=
  match lookupA s.rooms vid with
  | some m => m
  | none => []

/-- `join_room(visitor_id)` for a socket. -/
def joinRoom (rooms : List (String × List String)) (vid sid : String) :
    List (String × List String) :=
  match lookupA rooms vid with
  | some m => assocSet rooms vid (if sid ∈ m then m else m ++ [sid])
  | none => rooms ++ [(vid, [sid])]

/-- On disconnect socketio removes the socket from every room. -/
def leaveAllRooms (rooms : List (String × List String)) (sid : String) :
    List (String × List String) :=
  rooms.map (fun p => (p.1, p.2.filter (fun x => x ≠ sid)))

/-- `set.add`. -/
def addSid (l : List String) (sid : String) : List String :=
  if sid ∈ l then l else l ++ [sid]

/-- An `emit(...)` reply to the requesting socket only. -/
def directEvent (name sid : String) : Event :=
  { name := name, room := "", audience := [sid], recIdx := none, total := none }

/-- A `socketio.emit(..., room=visitor_id)` broadcast; the audience is the
room membership read at emit time. -/
def roomEvent (name : String) (s : ServerState) (vid : String)
    (recIdx total : Option Nat) : Event :=
  { name := name, room := vid, audience := roomMembers s vid,
    recIdx := recIdx, total := total }

/-- The `join_stream` handler: record the socket-to-visitor mapping, join the
room, then either attach to the existing stream (`joined_existing_stream`)
or create a session, start a worker and reply `stream_started`.  A falsy
`visitor_id` is answered with an `error` event. -/
def handle_join_stream (s : ServerState) (sid vid : String) : ServerState :=
  if vid = "" then { s with events := s.events ++ [directEvent "error" sid] }
  else
    let s1 := { s with socket_to_visitor := assocSet s.socket_to_visitor sid vid,
                       rooms := joinRoom s.rooms vid sid }
    match lookupA s1.active_streams vid with
    | some info =>
      { s1 with
        active_streams := assocSet s1.active_streams vid
          { info with socket_ids := addSid info.socket_ids sid },
        events := s1.events ++ [directEvent "joined_existing_stream" sid] }
    | none =>
      { s1 with
        active_streams := s1.active_streams ++
          [(vid, { socket_ids := [sid], status := "active", gen := s1.nextGen })],
        workers := s1.workers ++ [{ vid := vid, gen := s1.nextGen, idx := 0 }],
        nextGen := s1.nextGen + 1,
        events := s1.events ++ [directEvent "stream_started" sid] }

/-- The `disconnect` handler: the socket leaves all rooms; if it was mapped
to a visitor whose stream exists, it is discarded from the subscriber set and
an emptied set marks the stream `cleanup`; finally its mapping is deleted. -/
def handle_disconnect (s : ServerState) (sid : String) : ServerState :=
  let s0 := { s with rooms := leaveAllRooms s.rooms sid }
  match lookupA s0.socket_to_visitor sid with
  | none => s0
  | some vid =>
    let s1 :=
      match lookupA s0.active_streams vid with
      | some info =>
        let remaining := info.socket_ids.filter (fun x => x ≠ sid)
        let info2 : StreamInfo :=
          { info with socket_ids := remaining,
                      status := if remaining = [] then "cleanup" else info.status }
        { s0 with active_streams := assocSet s0.active_streams vid info2 }
      | none => s0
    { s1 with socket_to_visitor := s1.socket_to_visitor.filter (fun p => p.1 ≠ sid) }

/-- The `finally` block of `stream_predictions`:
`if visitor_id in active_streams: del active_streams[visitor_id]` —
keyed on the bare visitor id. -/
def reap (streams : List (String × StreamInfo)) (vid : String) :
    List (String × StreamInfo) :=
  if streams.any (fun p => p.1 = vid) then streams.filter (fun p => p.1 ≠ vid)
  else streams

/-- Normal termination (source exhausted, or the status check broke out of
the loop): emit `stream_complete` with `total = len(test_merged)`, then reap. -/
def finishComplete (env : Env) (s : ServerState) (i : Nat) (w : WorkerState) :
    ServerState :=
  { s with
    events := s.events ++ [roomEvent "stream_complete" s w.vid none (some env.src.length)],
    active_streams := reap s.active_streams w.vid,
    workers := s.workers.eraseIdx i }

/-- The except-branch of `stream_predictions`: emit `stream_error`, then reap. -/
def finishError (s : ServerState) (i : Nat) (w : WorkerState) : ServerState :=
  { s with
    events := s.events ++ [roomEvent "stream_error" s w.vid none none],
    active_streams := reap s.active_streams w.vid,
    workers := s.workers.eraseIdx i }

/-- One loop iteration of `stream_predictions` for the `i`-th worker: with no
record left the loop ends (completion); otherwise the status check may break
out (also completion); otherwise the record is transformed and scored — a
success emits one `prediction` to the room and advances the worker, a raised
exception emits one `stream_error` and terminates the worker. -/
def stream_step (env : Env) (s : ServerState) (i : Nat) : ServerState :=
  match s.workers.get? i with
  | none => s
  | some w =>
    match env.src.get? w.idx with
    | none => finishComplete env s i w
    | some r =>
      match lookupA s.active_streams w.vid with
      | none => finishComplete env s i w
      | some info =>
        if info.status = "cleanup" then finishComplete env s i w
        else
          match predictDetector env.A (recordDF r) with
          | Except.ok _ =>
            { s with
              events := s.events ++ [roomEvent "prediction" s w.vid (some w.idx) none],
              workers := s.workers.set i { w with idx := w.idx + 1 } }
          | Except.error _ => finishError s i w

/-- An observable action of the system: a handler invocation or one worker
loop iteration (eventlet interleaves them cooperatively). -/
inductive Action where
  | join (sid vid : String)
  | disc (sid : String)
  | work (i : Nat)
deriving DecidableEq, Repr

def step (env : Env) (s : ServerState) : Action → ServerState
  | Action.join sid vid => handle_join_stream s sid vid
  | Action.disc sid => handle_disconnect s sid
  | Action.work i => stream_step env s i

def run (env : Env) (acts : List Action) : ServerState :=
  acts.foldl (step env) initState

def Reachable (env : Env) (s : ServerState) : Prop := ∃ acts, run env acts = s

/-- Number of running workers attached to a visitor id. -/
def workerCount (ws : List WorkerState) (vid : String) : Nat :=
  (ws.filter (fun w => w.vid = vid)).length

/-- Executable form of the registry invariant "exactly one worker per
session whose status is `active`". -/
def oneWorkerPerActive (s : ServerState) : Bool :=
  s.active_streams.all
    (fun p => p.2.status ≠ "active" ∨ workerCount s.workers p.1 = 1)

def keysOf {α : Type} (l : List (String × α)) : List String := l.map Prod.fst

/-- The structural registry invariant maintained by every handler and
worker step: session keys are unique, every session has exactly one worker,
every worker belongs to a registered session, socket mappings are unique,
and no worker has read past the end of the source. -/
def Inv (env : Env) (s : ServerState) : Prop :=
  (keysOf s.active_streams).Nodup ∧
  (∀ p ∈ s.active_streams, workerCount s.workers p.1 = 1) ∧
  (∀ w ∈ s.workers, ∃ p ∈ s.active_streams, p.1 = w.vid) ∧
  (keysOf s.socket_to_visitor).Nodup ∧
  (∀ w ∈ s.workers, w.idx ≤ env.src.length)

/-- The five columns that `preprocess` itself derives and adds to the frame
(they are never synthesized as `-999`; everything else missing is). -/
def engineeredCols : List String :=
  ["uid1", "card1_mean", "card1_std",
   "TransactionAmt_to_mean_card1", "TransactionAmt_to_std_card1"]

/-- Executable: every output column that the caller did not supply and that
is not derived by the transformer itself consists of `-999` cells only. -/
def missingSynthesized (input out : DF) : Bool :=
  out.all (fun p => hasCol input p.1 ∨ p.1 ∈ engineeredCols ∨
    p.2.all (fun v => v = PVal.num (-999)))

/-- Executable: no output cell is NaN. -/
def noNanCells (out : DF) : Bool :=
  out.all (fun p => p.2.all (fun v => v ≠ PVal.nan))

/-! ### Concrete instances used by witnesses and counterexamples -/

def encoderConst : String → String → ℚ := fun _ _ => 7

def probaConst : DF → List ℚ := fun _ => [3/10]

/-- Artifacts with a categorical column and a final column nobody supplies. -/
def schemaArtifacts : Artifacts :=
  { card_stats := [], cat_cols := ["ProductCD"], encoder := encoderConst,
    final_columns := ["TransactionAmt", "ProductCD",
                      "TransactionAmt_to_mean_card1", "SomeMissing"],
    predict_proba := probaConst }

def schemaInput : DF :=
  recordDF [("card1", PVal.str "c"), ("addr1", PVal.nan),
            ("TransactionAmt", PVal.num 100), ("ProductCD", PVal.str "W")]

def schemaOutput : DF :=
  [("TransactionAmt", [PVal.num 100]), ("ProductCD", [PVal.num 7]),
   ("TransactionAmt_to_mean_card1", [PVal.num (-999)]),
   ("SomeMissing", [PVal.num (-999)])]

/-- Card `"1234"` has mean 50 and std 10 (the spec's worked example). -/
def ratioArtifacts : Artifacts :=
  { card_stats := [(PVal.str "1234",
      { mean := some (PVal.num 50), std := some (PVal.num 10) })],
    cat_cols := [], encoder := encoderConst,
    final_columns := ["TransactionAmt_to_mean_card1", "TransactionAmt_to_std_card1"],
    predict_proba := probaConst }

/-- Card `"1234"` has mean 50 but std 0. -/
def zeroStdArtifacts : Artifacts :=
  { card_stats := [(PVal.str "1234",
      { mean := some (PVal.num 50), std := some (PVal.num 0) })],
    cat_cols := [], encoder := encoderConst,
    final_columns := ["TransactionAmt_to_mean_card1", "TransactionAmt_to_std_card1"],
    predict_proba := probaConst }

def ratioRecord : List (String × PVal) :=
  [("card1", PVal.str "1234"), ("addr1", PVal.str "500"),
   ("TransactionAmt", PVal.num 100)]

/-- The transformer output for `ratioRecord` under `ratioArtifacts`. -/
def ratioOutput : DF :=
  [("TransactionAmt_to_mean_card1", [PVal.num (100 / 50)]),
   ("TransactionAmt_to_std_card1", [PVal.num (100 / 10)])]

/-- A one-column frame whose single cell is a string. -/
def singleObjDF : DF := [("d1", [PVal.str "z"])]

/-- Artifacts whose pipeline accepts `okRecord` without any card statistics. -/
def streamArtifacts : Artifacts :=
  { card_stats := [], cat_cols := [], encoder := encoderConst,
    final_columns := ["TransactionAmt"], predict_proba := probaConst }

def okRecord : List (String × PVal) :=
  [("card1", PVal.str "1"), ("addr1", PVal.str "2"),
   ("TransactionAmt", PVal.num 100)]

def streamEnv : Env := { A := streamArtifacts, src := [okRecord, okRecord, okRecord] }

/-- The prediction result for `okRecord` under `streamArtifacts`. -/
def streamResult : PredictionResult :=
  { fraud_probability := round4 (3 / 10), risk_level := get_risk_level (3 / 10),
    status := statusOf (3 / 10) }

/-- A source whose only record lacks every required column. -/
def failEnv : Env := { A := streamArtifacts, src := [[]] }

def emptySrcEnv : Env := { A := streamArtifacts, src := [] }

/-- The state after a single `join_stream("s1", "v1")` on `streamEnv`. -/
def joinedState : ServerState := run streamEnv [Action.join "s1" "v1"]

/-- The state after a single `join_stream("s1", "v")` on `emptySrcEnv`. -/
def emptyState : ServerState := run emptySrcEnv [Action.join "s1" "v"]

/-- The state after a single `join_stream("s1", "v")` on `failEnv`. -/
def failState : ServerState := run failEnv [Action.join "s1" "v"]

/-- The state after connection `"c"` joined session `"A"` on `streamEnv`. -/
def cJoinedState : ServerState := run streamEnv [Action.join "c" "A"]

/-- A registry state holding a generation-5 session for `"v"` while a stale
generation-1 worker for `"v"` is about to terminate. -/
def newerGenState : ServerState :=
  { active_streams := [("v", { socket_ids := ["s2"], status := "active", gen := 5 })],
    socket_to_visitor := [("s2", "v")],
    rooms := [("v", ["s2"])],
    workers := [{ vid := "v", gen := 1, idx := 0 }],
    events := [], nextGen := 6 }

/-! ### Association-list and frame lemmas -/

theorem lookupA_mem {κ α : Type} [DecidableEq κ] {l : List (κ × α)} {k : κ} {v : α}
    (h : lookupA l k = some v) : (k, v) ∈ l := by
  induction l with
  | nil => exact absurd h (by simp [lookupA])
  | cons p ps ih =>
    obtain ⟨pk, pv⟩ := p
    rw [lookupA] at h
    by_cases hp : pk = k
    · simp only [hp, if_pos] at h
      injection h with h2
      subst hp; subst h2
      exact List.mem_cons_self _ _
    · simp only [hp, if_neg, not_false_iff] at h
      exact List.mem_cons_of_mem _ (ih h)

theorem lookupA_eq_none_iff {κ α : Type} [DecidableEq κ] {l : List (κ × α)} {k : κ} :
    lookupA l k = none ↔ ∀ p ∈ l, p.1 ≠ k := by
  induction l with
  | nil => simp [lookupA]
  | cons p ps ih =>
    rw [lookupA]
    by_cases hp : p.1 = k
    · simp [hp]
    · simp [hp, ih]

theorem lookupA_append_some {κ α : Type} [DecidableEq κ] {l1 l2 : List (κ × α)}
    {k : κ} {v : α} (h : lookupA l1 k = some v) : lookupA (l1 ++ l2) k = some v := by
  induction l1 with
  | nil => exact absurd h (by simp [lookupA])
  | cons p ps ih =>
    rw [lookupA] at h
    rw [List.cons_append, lookupA]
    by_cases hp : p.1 = k
    · simpa [hp] using h
    · rw [if_neg hp] at h ⊢
      exact ih h

theorem lookupA_append_none {κ α : Type} [DecidableEq κ] {l1 : List (κ × α)}
    (l2 : List (κ × α)) {k : κ} (h : lookupA l1 k = none) :
    lookupA (l1 ++ l2) k = lookupA l2 k := by
  induction l1 with
  | nil => rfl
  | cons p ps ih =>
    rw [lookupA] at h
    rw [List.cons_append, lookupA]
    by_cases hp : p.1 = k
    · simp [hp] at h
    · rw [if_neg hp] at h ⊢
      exact ih h

theorem lookupA_mapSet_self {α : Type} (df : List (String × α)) (c : String)
    (cells : α) :
    lookupA (df.map (fun p => if p.1 = c then (c, cells) else p)) c =
      if (lookupA df c).isSome then some cells else none := by
  induction df with
  | nil => rfl
  | cons p ps ih =>
    by_cases hp : p.1 = c
    · simp [lookupA, hp]
    · simp only [List.map_cons, if_neg hp, lookupA, ih]

theorem lookupA_mapSet_ne {α : Type} (df : List (String × α)) (c c' : String)
    (cells : α) (h : c' ≠ c) :
    lookupA (df.map (fun p => if p.1 = c then (c, cells) else p)) c' =
      lookupA df c' := by
  induction df with
  | nil => rfl
  | cons p ps ih =>
    by_cases hp : p.1 = c
    · have hcc : ¬ c = c' := fun hh => h hh.symm
      have hpc : ¬ p.1 = c' := by rw [hp]; exact hcc
      simp only [List.map_cons, if_pos hp, lookupA, if_neg hcc, if_neg hpc, ih]
    · simp only [List.map_cons, if_neg hp, lookupA, ih]

theorem hasCol_false_getCol {df : DF} {c : String}
    (h : hasCol df c = false) : getCol df c = none := by
  rw [hasCol] at h
  exact Option.not_isSome_iff_eq_none.mp (by simp [h])

theorem getCol_some_hasCol {df : DF} {c : String} {cells : List PVal}
    (h : getCol df c = some cells) : hasCol df c = true := by
  rw [hasCol, h]; rfl

theorem getCol_setCol_self (df : DF) (c : String) (cells : List PVal) :
    getCol (setCol df c cells) c = some cells := by
  rw [setCol]
  by_cases h : hasCol df c
  · rw [if_pos h, getCol, lookupA_mapSet_self]
    rw [hasCol, getCol] at h
    rw [if_pos h]
  · rw [if_neg h]
    have hn : lookupA df c = none := hasCol_false_getCol (by simpa using h)
    rw [getCol, lookupA_append_none _ hn, lookupA]
    simp

theorem getCol_setCol_ne (df : DF) (c c' : String) (cells : List PVal)
    (h : c' ≠ c) : getCol (setCol df c cells) c' = getCol df c' := by
  rw [setCol]
  by_cases hb : hasCol df c
  · rw [if_pos hb, getCol, getCol, lookupA_mapSet_ne df c c' cells h]
  · rw [if_neg hb, getCol, getCol]
    cases hg : lookupA df c' with
    | some v => exact lookupA_append_some hg
    | none =>
      rw [lookupA_append_none _ hg, lookupA]
      rw [if_neg (fun hh => h hh.symm)]
      rfl

theorem hasCol_setCol_self (df : DF) (c : String) (cells : List PVal) :
    hasCol (setCol df c cells) c = true := by
  rw [hasCol, getCol_setCol_self]; rfl

theorem hasCol_setCol_ne (df : DF) (c c' : String) (cells : List PVal)
    (h : c' ≠ c) : hasCol (setCol df c cells) c' = hasCol df c' := by
  rw [hasCol, hasCol, getCol_setCol_ne df c c' cells h]

theorem hasCol_setCol_of_base (df : DF) (c c' : String) (cells : List PVal)
    (h : hasCol df c = true) : hasCol (setCol df c cells) c' = hasCol df c' := by
  by_cases hc : c' = c
  · subst hc; rw [hasCol_setCol_self, h]
  · exact hasCol_setCol_ne df c c' cells hc

theorem getCol_recordDF (r : List (String × PVal)) (c : String) :
    getCol (recordDF r) c = (lookupA r c).map (fun v => [v]) := by
  induction r with
  | nil => rfl
  | cons p ps ih =>
    rw [recordDF, List.map_cons, getCol, lookupA, lookupA]
    by_cases hp : p.1 = c
    · simp [hp]
    · simp only [if_neg hp]
      exact ih

theorem fillnaNum_cleanSentinel (q : ℚ) (x : PVal) :
    fillnaNum q (cleanSentinel x) = cleanSentinel x := by
  cases x <;> rfl

theorem fillnaNum_ne_nan (q : ℚ) (v : PVal) : fillnaNum q v ≠ PVal.nan := by
  cases v <;> simp [fillnaNum]

theorem pdivCell_ok_not_str {x y q : PVal} (h : pdivCell x y = Except.ok q) :
    isStrCell q = false := by
  cases x <;> cases y <;>
    first
      | exact Except.noConfusion h
      | (injection h with h2; subst h2; first | rfl | (split_ifs <;> rfl))

theorem isStrCell_cleanSentinel {x : PVal} (h : isStrCell x = false) :
    isStrCell (cleanSentinel x) = false := by
  cases x <;> simp_all [cleanSentinel, isStrCell]

theorem isObjectCol_singleton {x : PVal} (h : isStrCell x = false) :
    isObjectCol [x] = false := by
  simp [isObjectCol, h]

theorem getCol_alignColumns_of_hasCol (finalCols : List String) (n : Nat) (df : DF)
    (c : String) (h : hasCol df c = true) :
    getCol (alignColumns finalCols n df) c = getCol df c := by
  induction finalCols generalizing df with
  | nil => rfl
  | cons c0 rest ih =>
    rw [alignColumns, List.foldl_cons]
    by_cases h0 : hasCol df c0
    · rw [if_pos h0, ← alignColumns]
      exact ih df h
    · rw [if_neg h0]
      have hne : c ≠ c0 := by
        intro hh; subst hh; rw [h] at h0; exact h0 rfl
      rw [← alignColumns,
        ih _ (by rw [hasCol_setCol_ne df c0 c _ hne]; exact h)]
      exact getCol_setCol_ne df c0 c _ hne

theorem getCol_alignColumns_of_missing (finalCols : List String) (n : Nat) (df : DF)
    (c : String) (hmem : c ∈ finalCols) (h : hasCol df c = false) :
    getCol (alignColumns finalCols n df) c =
      some (List.replicate n (PVal.num (-999))) := by
  induction finalCols generalizing df with
  | nil => cases hmem
  | cons c0 rest ih =>
    rw [alignColumns, List.foldl_cons]
    by_cases hceq : c = c0
    · subst hceq
      rw [if_neg (by rw [h]; simp), ← alignColumns,
        getCol_alignColumns_of_hasCol rest n _ c (hasCol_setCol_self df c _)]
      exact getCol_setCol_self df c _
    · have hmem' : c ∈ rest := by
        rcases List.mem_cons.mp hmem with h1 | h2
        · exact absurd h1 hceq
        · exact h2
      by_cases h0 : hasCol df c0
      · rw [if_pos h0, ← alignColumns]
        exact ih df hmem' h
      · rw [if_neg h0, ← alignColumns]
        exact ih _ hmem' (by rw [hasCol_setCol_ne df c0 c _ hceq]; exact h)

theorem getCol_encodeCol_ne (A : Artifacts) (df : DF) (c0 c : String) (h : c ≠ c0) :
    getCol (encodeCol A df c0) c = getCol df c := by
  rw [encodeCol]
  cases hg : getCol df c0 with
  | none => rfl
  | some cells => exact getCol_setCol_ne df c0 c _ h

theorem hasCol_encodeCol (A : Artifacts) (df : DF) (c0 c : String) :
    hasCol (encodeCol A df c0) c = hasCol df c := by
  rw [encodeCol]
  cases hg : getCol df c0 with
  | none => rfl
  | some cells => exact hasCol_setCol_of_base df c0 c _ (getCol_some_hasCol hg)

theorem getCol_encodeFold (A : Artifacts) (cols : List String) (df : DF) (c : String)
    (h : c ∉ cols) : getCol (cols.foldl (encodeCol A) df) c = getCol df c := by
  induction cols generalizing df with
  | nil => rfl
  | cons c0 rest ih =>
    rw [List.foldl_cons]
    have h1 : c ≠ c0 := fun hh => h (hh ▸ List.mem_cons_self c0 rest)
    have h2 : c ∉ rest := fun hh => h (List.mem_cons_of_mem c0 hh)
    rw [ih _ h2]
    exact getCol_encodeCol_ne A df c0 c h1

theorem hasCol_encodeFold (A : Artifacts) (cols : List String) (df : DF) (c : String) :
    hasCol (cols.foldl (encodeCol A) df) c = hasCol df c := by
  induction cols generalizing df with
  | nil => rfl
  | cons c0 rest ih =>
    rw [List.foldl_cons, ih _]
    exact hasCol_encodeCol A df c0 c

theorem getCol_factorizeResiduals (f : List String) (df : DF) (c : String) :
    getCol (factorizeResiduals f df) c =
      (getCol df c).map (fun cells =>
        if isObjectCol cells = true ∧ c ∈ f then factorize (cells.map toStrMissing)
        else cells) := by
  induction df with
  | nil => rfl
  | cons p ps ih =>
    rw [factorizeResiduals] at ih ⊢
    rw [List.map_cons]
    by_cases hp : p.1 = c
    · subst hp
      by_cases hcond : isObjectCol p.2 = true ∧ p.1 ∈ f
      · rw [if_pos hcond, getCol, lookupA, if_pos rfl, getCol, lookupA, if_pos rfl]
        simp [hcond]
      · rw [if_neg hcond, getCol, lookupA, if_pos rfl, getCol, lookupA, if_pos rfl]
        simp [hcond]
    · by_cases hcond : isObjectCol p.2 = true ∧ p.1 ∈ f
      · rw [if_pos hcond, getCol, lookupA, if_neg hp, getCol, lookupA, if_neg hp]
        exact ih
      · rw [if_neg hcond, getCol, lookupA, if_neg hp, getCol, lookupA, if_neg hp]
        exact ih

theorem hasCol_factorizeResiduals (f : List String) (df : DF) (c : String) :
    hasCol (factorizeResiduals f df) c = hasCol df c := by
  rw [hasCol, hasCol, getCol_factorizeResiduals]
  cases getCol df c <;> rfl

theorem selectColumns_ok_map_fst {df : DF} {cols : List String} {out : DF}
    (h : selectColumns df cols = Except.ok out) : out.map Prod.fst = cols := by
  induction cols generalizing out with
  | nil =>
    rw [selectColumns] at h
    injection h with h2
    subst h2; rfl
  | cons c cs ih =>
    rw [selectColumns] at h
    cases hg : getCol df c with
    | none => rw [hg] at h; exact Except.noConfusion h
    | some cells =>
      rw [hg] at h
      cases hr : selectColumns df cs with
      | error e => rw [hr] at h; exact Except.noConfusion h
      | ok rest =>
        rw [hr] at h
        injection h with h2
        subst h2
        rw [List.map_cons, ih hr]

theorem selectColumns_ok_lookup {df : DF} {cols : List String} {out : DF}
    {c : String} {cells : List PVal}
    (h : selectColumns df cols = Except.ok out) (hc : c ∈ cols)
    (hg : getCol df c = some cells) :
    lookupA out c = some (cells.map (fillnaNum (-999))) := by
  induction cols generalizing out with
  | nil => cases hc
  | cons c0 cs ih =>
    rw [selectColumns] at h
    cases hg0 : getCol df c0 with
    | none => rw [hg0] at h; exact Except.noConfusion h
    | some cells0 =>
      rw [hg0] at h
      cases hr : selectColumns df cs with
      | error e => rw [hr] at h; exact Except.noConfusion h
      | ok rest =>
        rw [hr] at h
        injection h with h2
        subst h2
        rw [lookupA]
        by_cases hceq : c0 = c
        · subst hceq
          rw [if_pos rfl]
          rw [hg0] at hg
          injection hg with h3
          subst h3; rfl
        · rw [if_neg hceq]
          have hc' : c ∈ cs := by
            rcases List.mem_cons.mp hc with h1 | h2
            · exact absurd h1.symm hceq
            · exact h2
          exact ih hr hc'

theorem selectColumns_ok_forall {df : DF} {cols : List String} {out : DF}
    (h : selectColumns df cols = Except.ok out) :
    ∀ p ∈ out, ∃ cells, getCol df p.1 = some cells ∧
      p.2 = cells.map (fillnaNum (-999)) := by
  induction cols generalizing out with
  | nil =>
    rw [selectColumns] at h
    injection h with h2
    subst h2
    intro p hp; cases hp
  | cons c0 cs ih =>
    rw [selectColumns] at h
    cases hg0 : getCol df c0 with
    | none => rw [hg0] at h; exact Except.noConfusion h
    | some cells0 =>
      rw [hg0] at h
      cases hr : selectColumns df cs with
      | error e => rw [hr] at h; exact Except.noConfusion h
      | ok rest =>
        rw [hr] at h
        injection h with h2
        subst h2
        intro p hp
        rcases List.mem_cons.mp hp with h1 | h2
        · subst h1
          exact ⟨cells0, hg0, rfl⟩
        · exact ih hr p h2

theorem requireCol_ok_iff {df : DF} {c : String} {cells : List PVal} :
    requireCol df c = Except.ok cells ↔ getCol df c = some cells := by
  rw [requireCol]
  cases hg : getCol df c with
  | none => simp
  | some cells0 => simp

theorem zipDivide_singleton {x y : PVal} {rm : List PVal}
    (h : zipDivide [x] [y] = Except.ok rm) :
    ∃ q, pdivCell x y = Except.ok q ∧ rm = [q] := by
  rw [zipDivide] at h
  cases hd : pdivCell x y with
  | error e => rw [hd] at h; exact Except.noConfusion h
  | ok q =>
    rw [hd] at h
    injection h with h2
    exact ⟨q, rfl, h2.symm⟩

theorem encodeCats_ok_eq {A : Artifacts} {df df4 : DF}
    (h : encodeCats A df = Except.ok df4) :
    df4 = A.cat_cols.foldl (encodeCol A) df := by
  unfold encodeCats at h
  cases hc : checkCols df A.cat_cols with
  | error e => rw [hc] at h; exact Except.noConfusion h
  | ok u => rw [hc] at h; injection h with h2; exact h2.symm

theorem preprocess_ok_decomp {A : Artifacts} {input out : DF}
    (h : preprocess A input = Except.ok out) :
    ∃ c1 a1 amt rm rs df4,
      requireCol input "card1" = Except.ok c1 ∧
      requireCol input "addr1" = Except.ok a1 ∧
      requireCol (withEngineered A input c1 a1) "TransactionAmt" = Except.ok amt ∧
      zipDivide amt (meanCol A c1) = Except.ok rm ∧
      zipDivide amt (stdCol A c1) = Except.ok rs ∧
      encodeCats A (withRatios (withEngineered A input c1 a1) rm rs) = Except.ok df4 ∧
      finalAlign A.final_columns df4 = Except.ok out := by
  unfold preprocess at h
  split at h
  · exact Except.noConfusion h
  next c1 h1 =>
    split at h
    · exact Except.noConfusion h
    next a1 h2 =>
      split at h
      · exact Except.noConfusion h
      next amt h3 =>
        split at h
        · exact Except.noConfusion h
        next rm h4 =>
          split at h
          · exact Except.noConfusion h
          next rs h5 =>
            split at h
            · exact Except.noConfusion h
            next df4 h6 =>
              exact ⟨c1, a1, amt, rm, rs, df4, h1, h2, h3, h4, h5, h6, h⟩

theorem getCol_stage3_ne (A : Artifacts) (input : DF) (c1 a1 rm rs : List PVal)
    (c : String)
    (h1 : c ≠ "uid1") (h2 : c ≠ "card1_mean") (h3 : c ≠ "card1_std")
    (h4 : c ≠ "TransactionAmt_to_mean_card1")
    (h5 : c ≠ "TransactionAmt_to_std_card1") :
    getCol (withRatios (withEngineered A input c1 a1) rm rs) c = getCol input c := by
  rw [withRatios, withEngineered,
    getCol_setCol_ne _ _ _ _ h5, getCol_setCol_ne _ _ _ _ h4,
    getCol_setCol_ne _ _ _ _ h3, getCol_setCol_ne _ _ _ _ h2,
    getCol_setCol_ne _ _ _ _ h1]

theorem hasCol_stage3_ne (A : Artifacts) (input : DF) (c1 a1 rm rs : List PVal)
    (c : String)
    (h1 : c ≠ "uid1") (h2 : c ≠ "card1_mean") (h3 : c ≠ "card1_std")
    (h4 : c ≠ "TransactionAmt_to_mean_card1")
    (h5 : c ≠ "TransactionAmt_to_std_card1") :
    hasCol (withRatios (withEngineered A input c1 a1) rm rs) c = hasCol input c := by
  rw [withRatios, withEngineered,
    hasCol_setCol_ne _ _ _ _ h5, hasCol_setCol_ne _ _ _ _ h4,
    hasCol_setCol_ne _ _ _ _ h3, hasCol_setCol_ne _ _ _ _ h2,
    hasCol_setCol_ne _ _ _ _ h1]

theorem getCol_withEngineered_amt (A : Artifacts) (input : DF) (c1 a1 : List PVal) :
    getCol (withEngineered A input c1 a1) "TransactionAmt" =
      getCol input "TransactionAmt" := by
  rw [withEngineered,
    getCol_setCol_ne _ _ _ _ (by decide), getCol_setCol_ne _ _ _ _ (by decide),
    getCol_setCol_ne _ _ _ _ (by decide)]

theorem getCol_withRatios_mean (df : DF) (rm rs : List PVal) :
    getCol (withRatios df rm rs) "TransactionAmt_to_mean_card1" =
      some (rm.map cleanSentinel) := by
  rw [withRatios, getCol_setCol_ne _ _ _ _ (by decide), getCol_setCol_self]

theorem getCol_withRatios_std (df : DF) (rm rs : List PVal) :
    getCol (withRatios df rm rs) "TransactionAmt_to_std_card1" =
      some (rs.map cleanSentinel) := by
  rw [withRatios, getCol_setCol_self]

/-! ### The claims about the Feature Transformer -/

/-- **C1.**  Whenever `preprocess` returns an output — for a single
`RawRecord` turned into a one-row frame or for a batch frame alike — the
output consists of exactly the columns of `final_columns`, in that order;
every required column the caller did not supply (and that the transformer
does not itself derive: `uid1`, the card statistics and the two ratios are
computed, not synthesized) is synthesized with every cell `-999`; and no
residual missing (NaN) value survives in the output. -/
theorem preprocess_schema_alignment (A : Artifacts) (input out : DF)
    (h : preprocess A input = Except.ok out) :
    out.map Prod.fst = A.final_columns ∧
    missingSynthesized input out = true ∧
    noNanCells out = true := by
  obtain ⟨c1, a1, amt, rm, rs, df4, h1, h2, h3, h4, h5, h6, h7⟩ :=
    preprocess_ok_decomp h
  unfold finalAlign at h7
  refine ⟨selectColumns_ok_map_fst h7, ?_, ?_⟩
  · rw [missingSynthesized, List.all_eq_true]
    intro p hp
    rw [decide_eq_true_eq]
    by_cases hin : hasCol input p.1 = true
    · exact Or.inl hin
    by_cases heng : p.1 ∈ engineeredCols
    · exact Or.inr (Or.inl heng)
    refine Or.inr (Or.inr ?_)
    have hmem : p.1 ∈ A.final_columns := by
      rw [← selectColumns_ok_map_fst h7]
      exact List.mem_map_of_mem Prod.fst hp
    obtain ⟨cells, hget, hcells⟩ := selectColumns_ok_forall h7 p hp
    simp only [engineeredCols, List.mem_cons, List.mem_singleton,
      not_or] at heng
    obtain ⟨e1, e2, e3, e4, e5, -⟩ := heng
    have hnot5 : hasCol (factorizeResiduals A.final_columns df4) p.1 = false := by
      rw [hasCol_factorizeResiduals]
      rw [encodeCats_ok_eq h6, hasCol_encodeFold,
        hasCol_stage3_ne A input c1 a1 rm rs p.1 e1 e2 e3 e4 e5]
      exact Bool.not_eq_true _ ▸ (by simpa using hin)
    rw [getCol_alignColumns_of_missing _ _ _ _ hmem hnot5] at hget
    injection hget with hget2
    subst hget2
    rw [hcells, List.map_replicate]
    rw [List.all_eq_true]
    intro v hv
    rw [List.mem_replicate] at hv
    rw [hv.2]
    exact decide_eq_true rfl
  · rw [noNanCells, List.all_eq_true]
    intro p hp
    obtain ⟨cells, hget, hcells⟩ := selectColumns_ok_forall h7 p hp
    rw [hcells, List.all_eq_true]
    intro v hv
    rw [List.mem_map] at hv
    obtain ⟨x, hx, hfx⟩ := hv
    rw [decide_eq_true_eq, ← hfx]
    exact fillnaNum_ne_nan _ x

/-- Witness for C1 at the concrete artifacts `schemaArtifacts` and the
record `schemaInput` (which misses the final column `"SomeMissing"`). -/
theorem preprocess_schema_alignment_witness :
    schemaOutput.map Prod.fst = schemaArtifacts.final_columns ∧
    missingSynthesized schemaInput schemaOutput = true ∧
    noNanCells schemaOutput = true :=
  preprocess_schema_alignment schemaArtifacts schemaInput schemaOutput rfl

theorem preprocess_ratio_columns {A : Artifacts} {r : List (String × PVal)}
    {out : DF} {v w : PVal} {a : ℚ}
    (hc : lookupA r "card1" = some v)
    (ha : lookupA r "addr1" = some w)
    (ht : lookupA r "TransactionAmt" = some (PVal.num a))
    (hm : "TransactionAmt_to_mean_card1" ∉ A.cat_cols)
    (hs : "TransactionAmt_to_std_card1" ∉ A.cat_cols)
    (hfm : "TransactionAmt_to_mean_card1" ∈ A.final_columns)
    (hfs : "TransactionAmt_to_std_card1" ∈ A.final_columns)
    (hok : preprocess A (recordDF r) = Except.ok out) :
    ∃ qm qs,
      pdivCell (PVal.num a) (get_stat A.card_stats v CardStat.mean) = Except.ok qm ∧
      pdivCell (PVal.num a) (get_stat A.card_stats v CardStat.std) = Except.ok qs ∧
      lookupA out "TransactionAmt_to_mean_card1" = some [cleanSentinel qm] ∧
      lookupA out "TransactionAmt_to_std_card1" = some [cleanSentinel qs] := by
  obtain ⟨c1, a1, amt, rm, rs, df4, h1, h2, h3, h4, h5, h6, h7⟩ :=
    preprocess_ok_decomp hok
  rw [requireCol_ok_iff, getCol_recordDF, hc] at h1
  injection h1 with h1'
  subst h1'
  rw [requireCol_ok_iff, getCol_withEngineered_amt, getCol_recordDF, ht] at h3
  injection h3 with h3'
  subst h3'
  simp only [meanCol, List.map_cons, List.map_nil] at h4
  simp only [stdCol, List.map_cons, List.map_nil] at h5
  obtain ⟨qm, hdm, hrm⟩ := zipDivide_singleton h4
  subst hrm
  obtain ⟨qs, hds, hrs⟩ := zipDivide_singleton h5
  subst hrs
  have hdf4 := encodeCats_ok_eq h6
  subst hdf4
  refine ⟨qm, qs, hdm, hds, ?_, ?_⟩
  · have hg4 : getCol (A.cat_cols.foldl (encodeCol A)
        (withRatios (withEngineered A (recordDF r) [v] a1) [qm] [qs]))
        "TransactionAmt_to_mean_card1" = some [cleanSentinel qm] := by
      rw [getCol_encodeFold _ _ _ _ hm, getCol_withRatios_mean]
      rfl
    have hobj : isObjectCol [cleanSentinel qm] = false :=
      isObjectCol_singleton (isStrCell_cleanSentinel (pdivCell_ok_not_str hdm))
    have hg5 : getCol (factorizeResiduals A.final_columns
        (A.cat_cols.foldl (encodeCol A)
          (withRatios (withEngineered A (recordDF r) [v] a1) [qm] [qs])))
        "TransactionAmt_to_mean_card1" = some [cleanSentinel qm] := by
      rw [getCol_factorizeResiduals, hg4]
      simp [hobj]
    unfold finalAlign at h7
    have hg6 : getCol (alignColumns A.final_columns
        (nRows (factorizeResiduals A.final_columns
          (List.foldl (encodeCol A)
            (withRatios (withEngineered A (recordDF r) [v] a1) [qm] [qs])
            A.cat_cols)))
        (factorizeResiduals A.final_columns
          (List.foldl (encodeCol A)
            (withRatios (withEngineered A (recordDF r) [v] a1) [qm] [qs])
            A.cat_cols)))
        "TransactionAmt_to_mean_card1" = some [cleanSentinel qm] := by
      rw [getCol_alignColumns_of_hasCol _ _ _ _ (getCol_some_hasCol hg5)]
      exact hg5
    have := selectColumns_ok_lookup h7 hfm hg6
    rw [List.map_cons, List.map_nil, fillnaNum_cleanSentinel] at this
    exact this
  · have hg4 : getCol (A.cat_cols.foldl (encodeCol A)
        (withRatios (withEngineered A (recordDF r) [v] a1) [qm] [qs]))
        "TransactionAmt_to_std_card1" = some [cleanSentinel qs] := by
      rw [getCol_encodeFold _ _ _ _ hs, getCol_withRatios_std]
      rfl
    have hobj : isObjectCol [cleanSentinel qs] = false :=
      isObjectCol_singleton (isStrCell_cleanSentinel (pdivCell_ok_not_str hds))
    have hg5 : getCol (factorizeResiduals A.final_columns
        (A.cat_cols.foldl (encodeCol A)
          (withRatios (withEngineered A (recordDF r) [v] a1) [qm] [qs])))
        "TransactionAmt_to_std_card1" = some [cleanSentinel qs] := by
      rw [getCol_factorizeResiduals, hg4]
      simp [hobj]
    unfold finalAlign at h7
    have hg6 : getCol (alignColumns A.final_columns
        (nRows (factorizeResiduals A.final_columns
          (List.foldl (encodeCol A)
            (withRatios (withEngineered A (recordDF r) [v] a1) [qm] [qs])
            A.cat_cols)))
        (factorizeResiduals A.final_columns
          (List.foldl (encodeCol A)
            (withRatios (withEngineered A (recordDF r) [v] a1) [qm] [qs])
            A.cat_cols)))
        "TransactionAmt_to_std_card1" = some [cleanSentinel qs] := by
      rw [getCol_alignColumns_of_hasCol _ _ _ _ (getCol_some_hasCol hg5)]
      exact hg5
    have := selectColumns_ok_lookup h7 hfs hg6
    rw [List.map_cons, List.map_nil, fillnaNum_cleanSentinel] at this
    exact this

theorem cleanSentinel_div_cases (a b : ℚ) :
    cleanSentinel (if b = 0 then
        (if a = 0 then PVal.nan else if a > 0 then PVal.inf else PVal.ninf)
      else PVal.num (a / b)) =
      if b = 0 then PVal.num (-999) else PVal.num (a / b) := by
  by_cases hb : b = 0
  · rw [if_pos hb, if_pos hb]
    split_ifs <;> rfl
  · rw [if_neg hb, if_neg hb]
    rfl

/-- **C2 (amended).**  For a single record with a numeric amount: when the
card id is absent from the statistics table, *both* ratio features are
exactly `-999`; otherwise each ratio feature is `-999` exactly when *its
own* divisor (the looked-up mean for the mean ratio, the looked-up std for
the std ratio) is zero or missing, and is the exact quotient
`amount / divisor` when that divisor is a nonzero number — never NaN or
±infinity in any case.  (The original claim said a zero or missing mean
*or* std forces *both* ratios to `-999`; the code computes the two ratios
independently, see the counterexample.) -/
theorem ratio_sentinel_per_divisor {A : Artifacts} {r : List (String × PVal)}
    {out : DF} {v w : PVal} {a : ℚ}
    (hc : lookupA r "card1" = some v)
    (ha : lookupA r "addr1" = some w)
    (ht : lookupA r "TransactionAmt" = some (PVal.num a))
    (hm : "TransactionAmt_to_mean_card1" ∉ A.cat_cols)
    (hs : "TransactionAmt_to_std_card1" ∉ A.cat_cols)
    (hfm : "TransactionAmt_to_mean_card1" ∈ A.final_columns)
    (hfs : "TransactionAmt_to_std_card1" ∈ A.final_columns)
    (hok : preprocess A (recordDF r) = Except.ok out) :
    (match lookupA A.card_stats v with
     | none =>
        lookupA out "TransactionAmt_to_mean_card1" = some [PVal.num (-999)] ∧
        lookupA out "TransactionAmt_to_std_card1" = some [PVal.num (-999)]
     | some st =>
        (match st.mean with
         | some (PVal.num b) =>
            lookupA out "TransactionAmt_to_mean_card1" =
              some [if b = 0 then PVal.num (-999) else PVal.num (a / b)]
         | some PVal.nan =>
            lookupA out "TransactionAmt_to_mean_card1" = some [PVal.num (-999)]
         | none =>
            lookupA out "TransactionAmt_to_mean_card1" = some [PVal.num (-999)]
         | _ => True) ∧
        (match st.std with
         | some (PVal.num b) =>
            lookupA out "TransactionAmt_to_std_card1" =
              some [if b = 0 then PVal.num (-999) else PVal.num (a / b)]
         | some PVal.nan =>
            lookupA out "TransactionAmt_to_std_card1" = some [PVal.num (-999)]
         | none =>
            lookupA out "TransactionAmt_to_std_card1" = some [PVal.num (-999)]
         | _ => True)) := by
  obtain ⟨qm, qs, hdm, hds, hlm, hls⟩ :=
    preprocess_ratio_columns hc ha ht hm hs hfm hfs hok
  cases hst : lookupA A.card_stats v with
  | none =>
    have hgm : get_stat A.card_stats v CardStat.mean = PVal.nan := by
      unfold get_stat; rw [hst]
    have hgs : get_stat A.card_stats v CardStat.std = PVal.nan := by
      unfold get_stat; rw [hst]
    rw [hgm] at hdm
    rw [hgs] at hds
    have h2 : PVal.nan = qm := by injection hdm
    have h3 : PVal.nan = qs := by injection hds
    subst h2; subst h3
    exact ⟨hlm, hls⟩
  | some st =>
    have hgm : get_stat A.card_stats v CardStat.mean =
        (match st.mean with | some x => x | none => PVal.nan) := by
      unfold get_stat; rw [hst]
    have hgs : get_stat A.card_stats v CardStat.std =
        (match st.std with | some x => x | none => PVal.nan) := by
      unfold get_stat; rw [hst]
    constructor
    · cases hsm : st.mean with
      | none =>
        have hqm : PVal.nan = qm := by
          rw [hgm, hsm] at hdm
          injection hdm with h2
        subst hqm
        exact hlm
      | some x =>
        cases x with
        | num b =>
          have hqm : (if b = 0 then
              (if a = 0 then PVal.nan else if a > 0 then PVal.inf else PVal.ninf)
            else PVal.num (a / b)) = qm := by
            rw [hgm, hsm] at hdm
            injection hdm with h2
          subst hqm
          rw [cleanSentinel_div_cases] at hlm
          exact hlm
        | nan =>
          have hqm : PVal.nan = qm := by
            rw [hgm, hsm] at hdm
            injection hdm with h2
          subst hqm
          exact hlm
        | str s => trivial
        | inf => trivial
        | ninf => trivial
    · cases hss : st.std with
      | none =>
        have hqs : PVal.nan = qs := by
          rw [hgs, hss] at hds
          injection hds with h2
        subst hqs
        exact hls
      | some x =>
        cases x with
        | num b =>
          have hqs : (if b = 0 then
              (if a = 0 then PVal.nan else if a > 0 then PVal.inf else PVal.ninf)
            else PVal.num (a / b)) = qs := by
            rw [hgs, hss] at hds
            injection hds with h2
          subst hqs
          rw [cleanSentinel_div_cases] at hls
          exact hls
        | nan =>
          have hqs : PVal.nan = qs := by
            rw [hgs, hss] at hds
            injection hds with h2
          subst hqs
          exact hls
        | str s => trivial
        | inf => trivial
        | ninf => trivial

/-- C2 counterexample to the claim as stated: for the record
`{card1: "1234", addr1: "500", TransactionAmt: 100}` whose card statistics
have `std = 0` (a "zero std" card), the mean ratio is the exact quotient
`100/50 = 2`, not `-999`, even though the std divisor is zero — so "zero or
missing mean *or* std implies *both* ratios are `-999`" is false. -/
theorem ratio_zero_std_counterexample :
    preprocess zeroStdArtifacts (recordDF ratioRecord) =
      Except.ok [("TransactionAmt_to_mean_card1", [PVal.num (100 / 50)]),
                 ("TransactionAmt_to_std_card1", [PVal.num (-999)])] ∧
    lookupA zeroStdArtifacts.card_stats (PVal.str "1234") =
      some { mean := some (PVal.num 50), std := some (PVal.num 0) } ∧
    (100 / 50 : ℚ) = 2 ∧ (2 : ℚ) ≠ -999 :=
  ⟨rfl, rfl, by norm_num, by norm_num⟩

/-- Witness for the amended C2 at the spec's worked example: amount 100,
mean 50, std 10 give the exact quotients 2 and 10. -/
theorem ratio_sentinel_per_divisor_witness :
    (lookupA ratioOutput "TransactionAmt_to_mean_card1" =
      some [if (50 : ℚ) = 0 then PVal.num (-999) else PVal.num (100 / 50)]) ∧
    (lookupA ratioOutput "TransactionAmt_to_std_card1" =
      some [if (10 : ℚ) = 0 then PVal.num (-999) else PVal.num (100 / 10)]) :=
  @ratio_sentinel_per_divisor ratioArtifacts ratioRecord
    ratioOutput (PVal.str "1234") (PVal.str "500") 100
    rfl rfl rfl (by decide) (by decide) (by decide) (by decide) rfl

/-- **C3.**  The risk level is `CRITICAL` iff `p > 0.8`, `HIGH` iff
`0.5 < p ≤ 0.8` and `LOW` iff `p ≤ 0.5`; the status is `DENY` iff `p > 0.5`
and `APPROVE` iff `p ≤ 0.5`; in particular `p = 0.5` yields `LOW`/`APPROVE`
and `p = 0.8` yields `HIGH` (not `CRITICAL`) and `DENY`; and every
successful prediction result carries `get_risk_level`/`statusOf` of the
model's first-row probability. -/
theorem risk_level_status_thresholds (p : ℚ) :
    (get_risk_level p = "CRITICAL" ↔ p > 0.8) ∧
    (get_risk_level p = "HIGH" ↔ (0.5 < p ∧ p ≤ 0.8)) ∧
    (get_risk_level p = "LOW" ↔ p ≤ 0.5) ∧
    (statusOf p = "DENY" ↔ p > 0.5) ∧
    (statusOf p = "APPROVE" ↔ p ≤ 0.5) ∧
    get_risk_level 0.5 = "LOW" ∧ statusOf 0.5 = "APPROVE" ∧
    get_risk_level 0.8 = "HIGH" ∧ statusOf 0.8 = "DENY" ∧
    (∀ (A : Artifacts) (input : DF) (res : PredictionResult),
      predictDetector A input = Except.ok res →
      ∃ p0 processed rest, preprocess A input = Except.ok processed ∧
        A.predict_proba processed = p0 :: rest ∧
        res.risk_level = get_risk_level p0 ∧ res.status = statusOf p0 ∧
        res.fraud_probability = round4 p0) := by
  have hb1 : get_risk_level (0.5 : ℚ) = "LOW" := by
    unfold get_risk_level
    rw [if_neg (by norm_num), if_neg (by norm_num)]
  have hb2 : statusOf (0.5 : ℚ) = "APPROVE" := by
    unfold statusOf
    rw [if_neg (by norm_num)]
  have hb3 : get_risk_level (0.8 : ℚ) = "HIGH" := by
    unfold get_risk_level
    rw [if_neg (by norm_num), if_pos (by norm_num)]
  have hb4 : statusOf (0.8 : ℚ) = "DENY" := by
    unfold statusOf
    rw [if_pos (by norm_num)]
  refine ⟨?_, ?_, ?_, ?_, ?_, hb1, hb2, hb3, hb4, ?_⟩
  · unfold get_risk_level
    split_ifs with h1 h2
    · exact iff_of_true rfl h1
    · exact iff_of_false (by decide) h1
    · exact iff_of_false (by decide) h1
  · unfold get_risk_level
    split_ifs with h1 h2
    · exact iff_of_false (by decide) (fun hc => absurd h1 (not_lt.mpr hc.2))
    · exact iff_of_true rfl ⟨h2, not_lt.mp h1⟩
    · exact iff_of_false (by decide) (fun hc => h2 hc.1)
  · unfold get_risk_level
    split_ifs with h1 h2
    · exact iff_of_false (by decide)
        (not_le.mpr (lt_trans (by norm_num) h1))
    · exact iff_of_false (by decide) (not_le.mpr h2)
    · exact iff_of_true rfl (not_lt.mp h2)
  · unfold statusOf
    split_ifs with h1
    · exact iff_of_true rfl h1
    · exact iff_of_false (by decide) h1
  · unfold statusOf
    split_ifs with h1
    · exact iff_of_false (by decide) (not_le.mpr h1)
    · exact iff_of_true rfl (not_lt.mp h1)
  · intro A input res h
    unfold predictDetector at h
    split at h
    · exact Except.noConfusion h
    next processed hpre =>
      split at h
      · exact Except.noConfusion h
      next p0 rest hp =>
        injection h with h2
        subst h2
        exact ⟨p0, processed, rest, hpre, hp, rfl, rfl, rfl⟩

/-- Witness for C3: probability 0.81 is classified CRITICAL/DENY, and the
concrete prediction for `okRecord` carries the threshold functions of the
model's probability 3/10. -/
theorem risk_level_status_thresholds_witness :
    get_risk_level 0.81 = "CRITICAL" ∧ statusOf 0.81 = "DENY" ∧
    (∃ p0 processed rest,
      preprocess streamArtifacts (recordDF okRecord) = Except.ok processed ∧
      streamArtifacts.predict_proba processed = p0 :: rest ∧
      streamResult.risk_level = get_risk_level p0 ∧
      streamResult.status = statusOf p0 ∧
      streamResult.fraud_probability = round4 p0) :=
  ⟨(risk_level_status_thresholds 0.81).1.mpr (by norm_num),
   (risk_level_status_thresholds 0.81).2.2.2.1.mpr (by norm_num),
   (risk_level_status_thresholds 0).2.2.2.2.2.2.2.2.2
     streamArtifacts (recordDF okRecord) streamResult rfl⟩

/-- **C6.**  The single-shot route's failure signals as the code actually
produces them: malformed / empty / non-object payloads give 400; but a
record missing a required column such as `card1` makes `preprocess` raise
`KeyError`, which the route's generic handler maps to 500 — not the 422
that the route's own docstring ("422: Data insufficient / shape mismatch")
and the spec promise.  422 is reserved for `ValueError` alone. -/
theorem missing_required_field_gives_500 :
    predictRoute streamArtifacts Payload.notJson = 400 ∧
    predictRoute streamArtifacts Payload.emptyOrNonDict = 400 ∧
    predictRoute streamArtifacts
      (Payload.record [("addr1", PVal.str "500"),
                       ("TransactionAmt", PVal.num 100)]) = 500 ∧
    predictRoute streamArtifacts (Payload.record okRecord) = 200 ∧
    (500 : Nat) ≠ 422 :=
  ⟨rfl, rfl, rfl, rfl, by decide⟩

/-- **C10.**  `preprocess` is deterministic (two runs on the same input
agree); `factorize` of a one-row column is `[0]` whatever the raw value, so
in a single-record call every residual text column is encoded as 0; and the
enumeration is local to the call: the same raw value `"y"` receives code 1
in the batch `["x","y"]` but code 0 in the batch `["y"]`. -/
theorem preprocess_pure_local_enumeration :
    (∀ (A : Artifacts) (df o1 o2 : DF),
      preprocess A df = Except.ok o1 → preprocess A df = Except.ok o2 →
      o1 = o2) ∧
    (∀ s : String, factorize [s] = [PVal.num 0]) ∧
    (∀ (finalCols : List String) (df : DF),
      (∀ p ∈ df, p.2.length = 1) →
      ∀ q ∈ factorizeResiduals finalCols df, q ∈ df ∨ q.2 = [PVal.num 0]) ∧
    factorize ["x", "y"] = [PVal.num 0, PVal.num 1] ∧
    factorize ["y"] = [PVal.num 0] := by
  have hfac : ∀ s : String, factorize [s] = [PVal.num 0] := by
    intro s
    simp [factorize, idxOfFirst, countDistinct, seenDistinct]
  refine ⟨?_, hfac, ?_, by decide, by decide⟩
  · intro A df o1 o2 h1 h2
    rw [h1] at h2
    injection h2
  · intro finalCols df hone q hq
    rw [factorizeResiduals] at hq
    rw [List.mem_map] at hq
    obtain ⟨p, hp, hgp⟩ := hq
    by_cases hcond : isObjectCol p.2 = true ∧ p.1 ∈ finalCols
    · rw [if_pos hcond] at hgp
      right
      rw [← hgp]
      obtain ⟨x, hx⟩ := List.length_eq_one.mp (hone p hp)
      rw [hx, List.map_cons, List.map_nil]
      exact hfac _
    · rw [if_neg hcond] at hgp
      left
      rw [← hgp]
      exact hp

/-- Witness for C10: determinism at `schemaInput`; the single-cell object
column `d1` of `singleObjDF` is factorized to exactly `[0]`; and a fresh
raw value is coded 0. -/
theorem preprocess_pure_local_enumeration_witness :
    schemaOutput = schemaOutput ∧
    (("d1", [PVal.num 0]) ∈ singleObjDF ∨
      (("d1", [PVal.num 0]) : String × List PVal).2 = [PVal.num 0]) ∧
    factorize ["q"] = [PVal.num 0] :=
  ⟨preprocess_pure_local_enumeration.1 schemaArtifacts schemaInput
      schemaOutput schemaOutput rfl rfl,
   preprocess_pure_local_enumeration.2.2.1 ["d1"] singleObjDF (by decide)
      ("d1", [PVal.num 0]) (by decide),
   preprocess_pure_local_enumeration.2.1 "q"⟩

/-! ### Registry lemmas -/

theorem lookupA_some_any {α : Type} {l : List (String × α)} {k : String} {v : α}
    (h : lookupA l k = some v) : l.any (fun p => p.1 = k) = true := by
  rw [List.any_eq_true]
  exact ⟨(k, v), lookupA_mem h, by simp⟩

theorem lookupA_none_of_any_false {α : Type} {l : List (String × α)} {k : String}
    (h : ¬ l.any (fun p => p.1 = k) = true) : lookupA l k = none := by
  rw [lookupA_eq_none_iff]
  intro p hp hc
  exact h (List.any_eq_true.mpr ⟨p, hp, by simp [hc]⟩)

theorem lookupA_assocSet_self {α : Type} (l : List (String × α)) (k : String)
    (v : α) : lookupA (assocSet l k v) k = some v := by
  rw [assocSet]
  by_cases h : l.any (fun p => p.1 = k) = true
  · rw [if_pos h, lookupA_mapSet_self]
    rw [List.any_eq_true] at h
    obtain ⟨p, hp, hk⟩ := h
    rw [decide_eq_true_eq] at hk
    cases hg : lookupA l k with
    | some v0 => simp
    | none =>
      rw [lookupA_eq_none_iff] at hg
      exact absurd hk (hg p hp)
  · rw [if_neg h, lookupA_append_none _ (lookupA_none_of_any_false h), lookupA]
    simp

theorem lookupA_assocSet_ne {α : Type} (l : List (String × α)) (k k' : String)
    (v : α) (h : k' ≠ k) : lookupA (assocSet l k v) k' = lookupA l k' := by
  rw [assocSet]
  by_cases hb : l.any (fun p => p.1 = k) = true
  · rw [if_pos hb, lookupA_mapSet_ne _ _ _ _ h]
  · rw [if_neg hb]
    cases hg : lookupA l k' with
    | some v0 => exact lookupA_append_some hg
    | none =>
      rw [lookupA_append_none _ hg, lookupA, if_neg (fun hh => h hh.symm)]
      rfl

theorem keysOf_mapSet {α : Type} (l : List (String × α)) (k : String) (v : α) :
    keysOf (l.map (fun p => if p.1 = k then (k, v) else p)) = keysOf l := by
  induction l with
  | nil => rfl
  | cons p ps ih =>
    by_cases hp : p.1 = k
    · simp only [keysOf, List.map_cons, if_pos hp] at ih ⊢
      rw [ih, hp]
    · simp only [keysOf, List.map_cons, if_neg hp] at ih ⊢
      rw [ih]

theorem keysOf_assocSet_mem {α : Type} (l : List (String × α)) (k : String)
    (v : α) (h : l.any (fun p => p.1 = k) = true) :
    keysOf (assocSet l k v) = keysOf l := by
  rw [assocSet, if_pos h, keysOf_mapSet]

theorem keysOf_assocSet_new {α : Type} (l : List (String × α)) (k : String)
    (v : α) (h : ¬ l.any (fun p => p.1 = k) = true) :
    keysOf (assocSet l k v) = keysOf l ++ [k] := by
  rw [assocSet, if_neg h, keysOf, List.map_append]
  rfl

theorem mem_assocSet {α : Type} {l : List (String × α)} {k : String} {v : α} :
    ∀ p ∈ assocSet l k v, p = (k, v) ∨ p ∈ l := by
  intro p hp
  rw [assocSet] at hp
  by_cases h : l.any (fun q => q.1 = k) = true
  · rw [if_pos h, List.mem_map] at hp
    obtain ⟨q, hq, hfq⟩ := hp
    by_cases hqk : q.1 = k
    · rw [if_pos hqk] at hfq
      exact Or.inl hfq.symm
    · rw [if_neg hqk] at hfq
      exact Or.inr (hfq ▸ hq)
  · rw [if_neg h, List.mem_append] at hp
    rcases hp with hp | hp
    · exact Or.inr hp
    · rw [List.mem_singleton] at hp
      exact Or.inl hp

theorem workerCount_append (ws : List WorkerState) (w : WorkerState)
    (vid : String) :
    workerCount (ws ++ [w]) vid =
      workerCount ws vid + (if w.vid = vid then 1 else 0) := by
  rw [workerCount, workerCount, List.filter_append, List.length_append]
  congr 1
  by_cases h : w.vid = vid <;> simp [List.filter, h]

theorem workerCount_eq_zero {ws : List WorkerState} {vid : String}
    (h : ∀ w ∈ ws, w.vid ≠ vid) : workerCount ws vid = 0 := by
  rw [workerCount, List.length_eq_zero, List.filter_eq_nil_iff]
  intro w hw
  simp [h w hw]

theorem workerCount_pos_of_mem {ws : List WorkerState} {w : WorkerState}
    (hw : w ∈ ws) (hvid : w.vid = vid) : 1 ≤ workerCount ws vid := by
  rw [workerCount]
  have : w ∈ ws.filter (fun x => x.vid = vid) :=
    List.mem_filter.mpr ⟨hw, by simp [hvid]⟩
  exact List.length_pos.mpr (fun hnil => by rw [hnil] at this; cases this)

theorem eraseIdx_decomp {α : Type} :
    ∀ (l : List α) (i : Nat) (x : α), l.get? i = some x →
      l = l.take i ++ x :: l.drop (i + 1) ∧
      l.eraseIdx i = l.take i ++ l.drop (i + 1) := by
  intro l
  induction l with
  | nil => intro i x h; rw [List.get?_nil] at h; exact Option.noConfusion h
  | cons a as ih =>
    intro i x h
    cases i with
    | zero =>
      injection h with h2
      subst h2
      exact ⟨rfl, rfl⟩
    | succ j =>
      obtain ⟨hd, he⟩ := ih j x h
      constructor
      · rw [List.take_succ_cons, List.drop_succ_cons, List.cons_append]
        rw [← hd]
      · rw [List.eraseIdx_cons_succ, List.take_succ_cons, List.drop_succ_cons,
          List.cons_append]
        rw [← he]

theorem set_decomp {α : Type} :
    ∀ (l : List α) (i : Nat) (x y : α), l.get? i = some x →
      l.set i y = l.take i ++ y :: l.drop (i + 1) := by
  intro l
  induction l with
  | nil => intro i x y h; rw [List.get?_nil] at h; exact Option.noConfusion h
  | cons a as ih =>
    intro i x y h
    cases i with
    | zero => rfl
    | succ j =>
      rw [List.set_cons_succ, List.take_succ_cons, List.drop_succ_cons,
        List.cons_append, ih j x y h]

theorem workerCount_eraseIdx {ws : List WorkerState} {i : Nat} {w : WorkerState}
    (h : ws.get? i = some w) (vid : String) :
    workerCount (ws.eraseIdx i) vid =
      workerCount ws vid - (if w.vid = vid then 1 else 0) := by
  obtain ⟨hd, he⟩ := eraseIdx_decomp ws i w h
  rw [he, workerCount, List.filter_append, List.length_append]
  conv_rhs => rw [hd, workerCount, List.filter_append, List.length_append,
    List.filter_cons]
  by_cases hw : w.vid = vid
  · simp [hw]
  · simp [hw]

theorem workerCount_set {ws : List WorkerState} {i : Nat} {w : WorkerState}
    (w' : WorkerState) (h : ws.get? i = some w) (hvid : w'.vid = w.vid)
    (vid : String) :
    workerCount (ws.set i w') vid = workerCount ws vid := by
  rw [set_decomp ws i w w' h]
  conv_rhs => rw [(eraseIdx_decomp ws i w h).1]
  rw [workerCount, workerCount, List.filter_append, List.filter_append,
    List.filter_cons, List.filter_cons]
  by_cases hw : w.vid = vid
  · have h2 : w'.vid = vid := by rw [hvid]; exact hw
    simp [hw, h2]
  · have h2 : ¬ w'.vid = vid := by rw [hvid]; exact hw
    simp [hw, h2]

theorem mem_eraseIdx_sub {α : Type} {l : List α} {i : Nat} {x : α}
    (h : l.get? i = some x) : ∀ y ∈ l.eraseIdx i, y ∈ l := by
  intro y hy
  rw [(eraseIdx_decomp l i x h).2, List.mem_append] at hy
  rcases hy with hy | hy
  · exact List.take_subset i l hy
  · exact List.drop_subset (i + 1) l hy

theorem mem_set_decomp {α : Type} {l : List α} {i : Nat} {x y : α}
    (h : l.get? i = some x) : ∀ z ∈ l.set i y, z = y ∨ z ∈ l := by
  intro z hz
  rw [set_decomp l i x y h, List.mem_append, List.mem_cons] at hz
  rcases hz with hz | hz | hz
  · exact Or.inr (List.take_subset i l hz)
  · exact Or.inl hz
  · exact Or.inr (List.drop_subset (i + 1) l hz)

theorem lookupA_reap_self (streams : List (String × StreamInfo)) (vid : String) :
    lookupA (reap streams vid) vid = none := by
  rw [reap]
  by_cases h : streams.any (fun p => p.1 = vid) = true
  · rw [if_pos h, lookupA_eq_none_iff]
    intro p hp
    rw [List.mem_filter] at hp
    simpa using hp.2
  · rw [if_neg h]
    exact lookupA_none_of_any_false h

theorem mem_reap {streams : List (String × StreamInfo)} {vid : String} :
    ∀ p ∈ reap streams vid, p ∈ streams ∧ p.1 ≠ vid := by
  intro p hp
  rw [reap] at hp
  by_cases h : streams.any (fun q => q.1 = vid) = true
  · rw [if_pos h, List.mem_filter] at hp
    exact ⟨hp.1, by simpa using hp.2⟩
  · rw [if_neg h] at hp
    refine ⟨hp, fun hc => h (List.any_eq_true.mpr ⟨p, hp, by simp [hc]⟩)⟩

theorem mem_reap_of {streams : List (String × StreamInfo)} {vid : String}
    {p : String × StreamInfo} (hp : p ∈ streams) (hne : p.1 ≠ vid) :
    p ∈ reap streams vid := by
  rw [reap]
  by_cases h : streams.any (fun q => q.1 = vid) = true
  · rw [if_pos h, List.mem_filter]
    exact ⟨hp, by simpa using hne⟩
  · rw [if_neg h]
    exact hp

theorem keysOf_filter_fst {α : Type} (l : List (String × α)) (vid : String) :
    keysOf (l.filter (fun p => p.1 ≠ vid)) =
      (keysOf l).filter (fun k => k ≠ vid) := by
  induction l with
  | nil => rfl
  | cons p ps ih =>
    simp only [keysOf, List.filter_cons, List.map_cons] at ih ⊢
    by_cases hp : p.1 = vid
    · rw [if_neg (by simp [hp]), if_neg (by simp [hp])]
      exact ih
    · rw [if_pos (by simp [hp]), if_pos (by simp [hp]), List.map_cons, ih]

theorem nodup_keysOf_reap {streams : List (String × StreamInfo)} {vid : String}
    (h : (keysOf streams).Nodup) : (keysOf (reap streams vid)).Nodup := by
  rw [reap]
  by_cases hb : streams.any (fun p => p.1 = vid) = true
  · rw [if_pos hb, keysOf_filter_fst]
    exact h.filter _
  · rw [if_neg hb]
    exact h

theorem mem_assocSet_of_ne {α : Type} {l : List (String × α)} {k : String}
    {v : α} {p : String × α} (hp : p ∈ l) (hne : p.1 ≠ k) :
    p ∈ assocSet l k v := by
  rw [assocSet]
  by_cases h : l.any (fun q => q.1 = k) = true
  · rw [if_pos h, List.mem_map]
    exact ⟨p, hp, by rw [if_neg hne]⟩
  · rw [if_neg h, List.mem_append]
    exact Or.inl hp

theorem nodup_keysOf_assocSet {α : Type} {l : List (String × α)} (k : String)
    (v : α) (h : (keysOf l).Nodup) : (keysOf (assocSet l k v)).Nodup := by
  by_cases hb : l.any (fun p => p.1 = k) = true
  · rw [keysOf_assocSet_mem _ _ _ hb]
    exact h
  · rw [keysOf_assocSet_new _ _ _ hb, List.nodup_append]
    refine ⟨h, List.nodup_singleton k, ?_⟩
    intro a ha hak
    rw [List.mem_singleton] at hak
    subst hak
    rw [keysOf, List.mem_map] at ha
    obtain ⟨p, hp, hpk⟩ := ha
    exact hb (List.any_eq_true.mpr ⟨p, hp, by simp [hpk]⟩)

/-! ### The registry invariant is preserved by every action -/

theorem inv_init (env : Env) : Inv env initState := by
  refine ⟨List.nodup_nil, ?_, ?_, List.nodup_nil, ?_⟩ <;>
    (intro x hx; cases hx)

theorem inv_join (env : Env) (s : ServerState) (sid vid : String)
    (h : Inv env s) : Inv env (handle_join_stream s sid vid) := by
  obtain ⟨h1, h2, h3, h4, h5⟩ := h
  unfold handle_join_stream
  by_cases hv : vid = ""
  · rw [if_pos hv]
    exact ⟨h1, h2, h3, h4, h5⟩
  rw [if_neg hv]
  dsimp only
  cases hl : lookupA s.active_streams vid with
  | some info =>
    dsimp only
    refine ⟨?_, ?_, ?_, ?_, h5⟩
    · rw [keysOf_assocSet_mem _ _ _ (lookupA_some_any hl)]
      exact h1
    · intro p hp
      rcases mem_assocSet p hp with rfl | hp2
      · exact h2 (vid, info) (lookupA_mem hl)
      · exact h2 p hp2
    · intro w hw
      obtain ⟨p, hp, hpw⟩ := h3 w hw
      by_cases hpv : p.1 = vid
      · refine ⟨(vid, { info with socket_ids := addSid info.socket_ids sid }),
          lookupA_mem (lookupA_assocSet_self _ _ _), ?_⟩
        rw [← hpv]
        exact hpw
      · exact ⟨p, mem_assocSet_of_ne hp hpv, hpw⟩
    · exact nodup_keysOf_assocSet sid vid h4
  | none =>
    dsimp only
    refine ⟨?_, ?_, ?_, nodup_keysOf_assocSet sid vid h4, ?_⟩
    · simp only [keysOf]
      rw [List.map_append, List.nodup_append]
      refine ⟨h1, List.nodup_singleton _, ?_⟩
      intro a ha hak
      rw [List.map_cons, List.map_nil, List.mem_singleton] at hak
      subst hak
      rw [List.mem_map] at ha
      obtain ⟨p, hp, hpk⟩ := ha
      exact (lookupA_eq_none_iff.mp hl) p hp hpk
    · intro p hp
      rw [List.mem_append] at hp
      rcases hp with hp | hp
      · rw [workerCount_append]
        have hpv : p.1 ≠ vid := (lookupA_eq_none_iff.mp hl) p hp
        rw [if_neg (fun hh => hpv hh.symm), Nat.add_zero]
        exact h2 p hp
      · rw [List.mem_singleton] at hp
        subst hp
        rw [workerCount_append]
        have hz : workerCount s.workers vid = 0 := by
          refine workerCount_eq_zero ?_
          intro w hw hc
          obtain ⟨p, hp, hpw⟩ := h3 w hw
          exact (lookupA_eq_none_iff.mp hl) p hp (by rw [hpw, hc])
        rw [hz, if_pos rfl]
    · intro w hw
      rw [List.mem_append] at hw
      rcases hw with hw | hw
      · obtain ⟨p, hp, hpw⟩ := h3 w hw
        exact ⟨p, List.mem_append_left _ hp, hpw⟩
      · rw [List.mem_singleton] at hw
        subst hw
        exact ⟨(vid, { socket_ids := [sid], status := "active", gen := s.nextGen }),
          List.mem_append_right _ (List.mem_singleton_self _), rfl⟩
    · intro w hw
      rw [List.mem_append] at hw
      rcases hw with hw | hw
      · exact h5 w hw
      · rw [List.mem_singleton] at hw
        subst hw
        exact Nat.zero_le _

theorem inv_disc (env : Env) (s : ServerState) (sid : String)
    (h : Inv env s) : Inv env (handle_disconnect s sid) := by
  obtain ⟨h1, h2, h3, h4, h5⟩ := h
  unfold handle_disconnect
  dsimp only
  cases hv : lookupA s.socket_to_visitor sid with
  | none => exact ⟨h1, h2, h3, h4, h5⟩
  | some vid =>
    dsimp only
    cases hstream : lookupA s.active_streams vid with
    | none =>
      dsimp only
      refine ⟨h1, h2, h3, ?_, h5⟩
      rw [keysOf_filter_fst]
      exact h4.filter _
    | some info =>
      dsimp only
      refine ⟨?_, ?_, ?_, ?_, h5⟩
      · rw [keysOf_assocSet_mem _ _ _ (lookupA_some_any hstream)]
        exact h1
      · intro p hp
        rcases mem_assocSet p hp with rfl | hp2
        · exact h2 (vid, info) (lookupA_mem hstream)
        · exact h2 p hp2
      · intro w hw
        obtain ⟨p, hp, hpw⟩ := h3 w hw
        by_cases hpv : p.1 = vid
        · refine ⟨(vid, _), lookupA_mem (lookupA_assocSet_self _ _ _), ?_⟩
          rw [← hpv]
          exact hpw
        · exact ⟨p, mem_assocSet_of_ne hp hpv, hpw⟩
      · rw [keysOf_filter_fst]
        exact h4.filter _

theorem inv_work (env : Env) (s : ServerState) (i : Nat)
    (h : Inv env s) : Inv env (stream_step env s i) := by
  obtain ⟨h1, h2, h3, h4, h5⟩ := h
  unfold stream_step
  cases hw : s.workers.get? i with
  | none => exact ⟨h1, h2, h3, h4, h5⟩
  | some w =>
    dsimp only
    have hterm : ∀ ev : Event, Inv env
        { s with events := s.events ++ [ev],
                 active_streams := reap s.active_streams w.vid,
                 workers := s.workers.eraseIdx i } := by
      intro ev
      refine ⟨nodup_keysOf_reap h1, ?_, ?_, h4, ?_⟩
      · intro p hp
        obtain ⟨hpmem, hpne⟩ := mem_reap p hp
        rw [workerCount_eraseIdx hw p.1, if_neg (fun hh => hpne hh.symm),
          Nat.sub_zero]
        exact h2 p hpmem
      · intro w2 hw2
        have hw2mem : w2 ∈ s.workers := mem_eraseIdx_sub hw w2 hw2
        obtain ⟨p, hp, hpw⟩ := h3 w2 hw2mem
        by_cases hpv : p.1 = w.vid
        · exfalso
          have hcount : workerCount s.workers w.vid = 1 := by
            have := h2 p hp
            rw [hpv] at this
            exact this
          have hzero : workerCount (s.workers.eraseIdx i) w.vid = 0 := by
            rw [workerCount_eraseIdx hw, hcount, if_pos rfl]
          have hpos : 1 ≤ workerCount (s.workers.eraseIdx i) w.vid := by
            refine workerCount_pos_of_mem hw2 ?_
            rw [← hpw, hpv]
          omega
        · exact ⟨p, mem_reap_of hp hpv, hpw⟩
      · intro w2 hw2
        exact h5 w2 (mem_eraseIdx_sub hw w2 hw2)
    cases hr : env.src.get? w.idx with
    | none => exact hterm _
    | some r =>
      dsimp only
      cases hlook : lookupA s.active_streams w.vid with
      | none => exact hterm _
      | some info =>
        dsimp only
        by_cases hst : info.status = "cleanup"
        · rw [if_pos hst]
          exact hterm _
        · rw [if_neg hst]
          cases predictDetector env.A (recordDF r) with
          | error e => exact hterm _
          | ok res =>
            dsimp only
            refine ⟨h1, ?_, ?_, h4, ?_⟩
            · intro p hp
              dsimp only at hp ⊢
              rw [workerCount_set { vid := w.vid, gen := w.gen, idx := w.idx + 1 }
                hw rfl]
              exact h2 p hp
            · intro w2 hw2
              rcases mem_set_decomp hw w2 hw2 with rfl | hw2m
              · obtain ⟨p, hp, hpw⟩ := h3 w (List.get?_mem hw)
                exact ⟨p, hp, hpw⟩
              · exact h3 w2 hw2m
            · intro w2 hw2
              rcases mem_set_decomp hw w2 hw2 with rfl | hw2m
              · obtain ⟨hlt, -⟩ := List.get?_eq_some.mp hr
                exact Nat.succ_le_of_lt hlt
              · exact h5 w2 hw2m

theorem inv_step (env : Env) (s : ServerState) (a : Action)
    (h : Inv env s) : Inv env (step env s a) := by
  cases a with
  | join sid vid => exact inv_join env s sid vid h
  | disc sid => exact inv_disc env s sid h
  | work i => exact inv_work env s i h

theorem inv_run (env : Env) (acts : List Action) : Inv env (run env acts) := by
  rw [run]
  have hgen : ∀ (l : List Action) (s0 : ServerState), Inv env s0 →
      Inv env (l.foldl (step env) s0) := by
    intro l
    induction l with
    | nil => intro s0 h; exact h
    | cons a as ih =>
      intro s0 h
      rw [List.foldl_cons]
      exact ih _ (inv_step env s0 a h)
  exact hgen acts initState (inv_init env)

theorem reachable_inv {env : Env} {s : ServerState} (h : Reachable env s) :
    Inv env s := by
  obtain ⟨acts, hacts⟩ := h
  rw [← hacts]
  exact inv_run env acts

theorem oneWorkerPerActive_of_inv {env : Env} {s : ServerState}
    (h : Inv env s) : oneWorkerPerActive s = true := by
  obtain ⟨-, h2, -, -, -⟩ := h
  rw [oneWorkerPerActive, List.all_eq_true]
  intro p hp
  rw [decide_eq_true_eq]
  exact Or.inr (h2 p hp)

theorem filter_key_length_le_one {α : Type} {l : List (String × α)} {k : String}
    (h : (keysOf l).Nodup) : (l.filter (fun p => p.1 = k)).length ≤ 1 := by
  induction l with
  | nil => simp
  | cons p ps ih =>
    simp only [keysOf, List.map_cons, List.nodup_cons] at h
    rw [List.filter_cons]
    by_cases hp : p.1 = k
    · rw [if_pos (by simp [hp])]
      have hnil : ps.filter (fun q => q.1 = k) = [] := by
        rw [List.filter_eq_nil_iff]
        intro q hq
        simp only [decide_eq_true_eq]
        intro hqk
        exact h.1 (List.mem_map.mpr ⟨q, hq, by rw [hqk, hp]⟩)
      rw [hnil]
      simp
    · rw [if_neg (by simp [hp])]
      exact ih (by simp only [keysOf]; exact h.2)

theorem lookupA_joinRoom_ne (rooms : List (String × List String))
    (vidB sid vidA : String) (h : vidA ≠ vidB) :
    lookupA (joinRoom rooms vidB sid) vidA = lookupA rooms vidA := by
  rw [joinRoom]
  cases hl : lookupA rooms vidB with
  | some m => exact lookupA_assocSet_ne _ _ _ _ h
  | none =>
    cases hg : lookupA rooms vidA with
    | some v => exact lookupA_append_some hg
    | none =>
      rw [lookupA_append_none _ hg, lookupA, if_neg (fun hh => h hh.symm)]
      rfl

/-! ### The claims about the session registry and the stream worker -/

/-- **C4.**  Every reachable registry state has exactly one worker per
session whose status is active (and this is preserved by a join); a join
for a fresh visitor id creates the session with status `"active"` and that
connection as sole subscriber, starts exactly one worker, and replies
`stream_started`; a join for an existing visitor id — a second, concurrent
or later, join for the same id — only adds the connection to the
subscriber set, replies `joined_existing_stream`, and starts no second
worker. -/
theorem join_stream_single_worker (env : Env) (s : ServerState)
    (sid vid : String) (hreach : Reachable env s) (hvid : vid ≠ "") :
    oneWorkerPerActive s = true ∧
    oneWorkerPerActive (handle_join_stream s sid vid) = true ∧
    (match lookupA s.active_streams vid with
     | none =>
        (handle_join_stream s sid vid).active_streams =
          s.active_streams ++
            [(vid, { socket_ids := [sid], status := "active", gen := s.nextGen })] ∧
        (handle_join_stream s sid vid).workers =
          s.workers ++ [{ vid := vid, gen := s.nextGen, idx := 0 }] ∧
        (handle_join_stream s sid vid).events =
          s.events ++ [directEvent "stream_started" sid]
     | some info =>
        lookupA (handle_join_stream s sid vid).active_streams vid =
          some { info with socket_ids := addSid info.socket_ids sid } ∧
        (handle_join_stream s sid vid).workers = s.workers ∧
        (handle_join_stream s sid vid).events =
          s.events ++ [directEvent "joined_existing_stream" sid]) := by
  have hinv := reachable_inv hreach
  refine ⟨oneWorkerPerActive_of_inv hinv,
    oneWorkerPerActive_of_inv (inv_join env s sid vid hinv), ?_⟩
  unfold handle_join_stream
  rw [if_neg hvid]
  dsimp only
  cases hl : lookupA s.active_streams vid with
  | none =>
    dsimp only
    exact ⟨rfl, rfl, rfl⟩
  | some info =>
    dsimp only
    exact ⟨lookupA_assocSet_self _ _ _, rfl, rfl⟩

/-- Witness for C4: a second join for the already-joined visitor `"v1"`
adds `"s2"` to the subscriber set, replies `joined_existing_stream`, and
starts no second worker. -/
theorem join_stream_single_worker_witness :
    oneWorkerPerActive joinedState = true ∧
    oneWorkerPerActive (handle_join_stream joinedState "s2" "v1") = true ∧
    (lookupA (handle_join_stream joinedState "s2" "v1").active_streams "v1" =
      some { socket_ids := ["s1", "s2"], status := "active", gen := 0 } ∧
    (handle_join_stream joinedState "s2" "v1").workers = joinedState.workers ∧
    (handle_join_stream joinedState "s2" "v1").events =
      joinedState.events ++ [directEvent "joined_existing_stream" "s2"]) :=
  join_stream_single_worker streamEnv joinedState "s2" "v1"
    ⟨[Action.join "s1" "v1"], rfl⟩ (by decide)

/-- **C5.**  A transform/score exception while processing a record is
stream-fatal: that step emits exactly one `stream_error` event to the
members of the session's room at emit time, the session is removed from
the registry, the worker is gone, and no worker for that visitor id
remains — so no further records are processed, no partial results for
later records are emitted, and nothing retries. -/
theorem stream_error_is_fatal (env : Env) (s : ServerState) (i : Nat)
    (w : WorkerState) (r : List (String × PVal)) (info : StreamInfo) (e : PyErr)
    (hreach : Reachable env s)
    (hw : s.workers.get? i = some w)
    (hr : env.src.get? w.idx = some r)
    (hinfo : lookupA s.active_streams w.vid = some info)
    (hactive : info.status ≠ "cleanup")
    (herr : predictDetector env.A (recordDF r) = Except.error e) :
    (stream_step env s i).events =
      s.events ++ [roomEvent "stream_error" s w.vid none none] ∧
    lookupA (stream_step env s i).active_streams w.vid = none ∧
    (stream_step env s i).workers = s.workers.eraseIdx i ∧
    workerCount (stream_step env s i).workers w.vid = 0 := by
  have hinv := reachable_inv hreach
  have hstep : stream_step env s i = finishError s i w := by
    unfold stream_step
    rw [hw]
    dsimp only
    rw [hr]
    dsimp only
    rw [hinfo]
    dsimp only
    rw [if_neg hactive, herr]
  rw [hstep]
  unfold finishError
  refine ⟨rfl, lookupA_reap_self _ _, rfl, ?_⟩
  dsimp only
  rw [workerCount_eraseIdx hw, if_pos rfl]
  obtain ⟨-, h2, -, -, -⟩ := hinv
  rw [h2 (w.vid, info) (lookupA_mem hinfo)]

/-- Witness for C5: the only record of `failEnv` lacks `card1`, so the
first worker step emits one `stream_error` to the subscriber and reclaims
the session. -/
theorem stream_error_is_fatal_witness :
    (stream_step failEnv failState 0).events = failState.events ++
      [roomEvent "stream_error" failState "v" none none] ∧
    lookupA (stream_step failEnv failState 0).active_streams "v" = none ∧
    (stream_step failEnv failState 0).workers = failState.workers.eraseIdx 0 ∧
    workerCount (stream_step failEnv failState 0).workers "v" = 0 :=
  stream_error_is_fatal failEnv failState 0
    { vid := "v", gen := 0, idx := 0 } [] { socket_ids := ["s1"], status := "active", gen := 0 }
    (PyErr.keyError "card1")
    ⟨[Action.join "s1" "v"], rfl⟩ rfl rfl rfl (by decide) rfl

/-- **C7 (amended / corrected).**  A connection maps to at most one
visitor id at a time: joining session B overwrites its `socket_to_visitor`
entry with B.  But — contrary to the original claim — it is *not* removed
from session A's subscriber set nor from A's room, so results emitted by
A's worker after that point are still delivered to it (see the
counterexample). -/
theorem join_overwrites_mapping_keeps_old_subscription (env : Env)
    (s : ServerState) (sid vidA vidB : String) (infoA : StreamInfo)
    (hreach : Reachable env s)
    (hA : lookupA s.active_streams vidA = some infoA)
    (hsid : sid ∈ infoA.socket_ids)
    (hroom : sid ∈ roomMembers s vidA)
    (hne : vidB ≠ vidA) (hB : vidB ≠ "") :
    lookupA (handle_join_stream s sid vidB).active_streams vidA = some infoA ∧
    sid ∈ infoA.socket_ids ∧
    sid ∈ roomMembers (handle_join_stream s sid vidB) vidA ∧
    lookupA (handle_join_stream s sid vidB).socket_to_visitor sid = some vidB ∧
    ((handle_join_stream s sid vidB).socket_to_visitor.filter
        (fun p => p.1 = sid)).length ≤ 1 := by
  have hAne : vidA ≠ vidB := fun hh => hne hh.symm
  have hinv2 := inv_join env s sid vidB (reachable_inv hreach)
  obtain ⟨-, -, -, h4, -⟩ := hinv2
  have hm0 : ∃ m0, lookupA s.rooms vidA = some m0 ∧ sid ∈ m0 := by
    cases hrm : lookupA s.rooms vidA with
    | none =>
      rw [roomMembers, hrm] at hroom
      cases hroom
    | some m0 =>
      rw [roomMembers, hrm] at hroom
      exact ⟨m0, rfl, hroom⟩
  obtain ⟨m0, hm0l, hm0mem⟩ := hm0
  refine ⟨?_, hsid, ?_, ?_, filter_key_length_le_one h4⟩
  · unfold handle_join_stream
    rw [if_neg hB]
    dsimp only
    cases hl : lookupA s.active_streams vidB with
    | none =>
      dsimp only
      exact lookupA_append_some hA
    | some infoB =>
      dsimp only
      rw [lookupA_assocSet_ne _ _ _ _ hAne]
      exact hA
  · unfold handle_join_stream
    rw [if_neg hB]
    dsimp only
    cases hl : lookupA s.active_streams vidB with
    | none =>
      dsimp only
      rw [roomMembers]
      dsimp only
      rw [lookupA_joinRoom_ne _ _ _ _ hAne, hm0l]
      exact hm0mem
    | some infoB =>
      dsimp only
      rw [roomMembers]
      dsimp only
      rw [lookupA_joinRoom_ne _ _ _ _ hAne, hm0l]
      exact hm0mem
  · unfold handle_join_stream
    rw [if_neg hB]
    dsimp only
    cases hl : lookupA s.active_streams vidB with
    | none =>
      dsimp only
      exact lookupA_assocSet_self _ _ _
    | some infoB =>
      dsimp only
      exact lookupA_assocSet_self _ _ _

/-- C7 counterexample to the claim as stated: after connection `"c"` (a
subscriber of session A) joins session B, session A still lists `"c"` as a
subscriber and A's next prediction is delivered to `"c"`, while
`socket_to_visitor` maps `"c"` to B. -/
theorem join_other_session_still_subscribed_ce :
    (run streamEnv [Action.join "c" "A", Action.join "c" "B",
        Action.work 0]).events.get? 2 =
      some { name := "prediction", room := "A", audience := ["c"],
             recIdx := some 0, total := none } ∧
    lookupA (run streamEnv [Action.join "c" "A", Action.join "c" "B",
        Action.work 0]).socket_to_visitor "c" = some "B" ∧
    (lookupA (run streamEnv [Action.join "c" "A", Action.join "c" "B",
        Action.work 0]).active_streams "A").map StreamInfo.socket_ids =
      some ["c"] := by
  refine ⟨?_, ?_, ?_⟩ <;> decide

/-- Witness for the amended C7 at a concrete reachable state: `"c"` is
subscribed to A, joins B, keeps its A subscription and room membership,
and its visitor mapping is overwritten to B (and stays unique). -/
theorem join_overwrites_mapping_keeps_old_subscription_witness :
    lookupA (handle_join_stream cJoinedState "c" "B").active_streams "A" =
      some { socket_ids := ["c"], status := "active", gen := 0 } ∧
    "c" ∈ ({ socket_ids := ["c"], status := "active", gen := 0 } : StreamInfo).socket_ids ∧
    "c" ∈ roomMembers (handle_join_stream cJoinedState "c" "B") "A" ∧
    lookupA (handle_join_stream cJoinedState "c" "B").socket_to_visitor "c" =
      some "B" ∧
    ((handle_join_stream cJoinedState "c" "B").socket_to_visitor.filter
        (fun p => p.1 = "c")).length ≤ 1 :=
  join_overwrites_mapping_keeps_old_subscription streamEnv cJoinedState
    "c" "A" "B" { socket_ids := ["c"], status := "active", gen := 0 }
    ⟨[Action.join "c" "A"], rfl⟩ rfl (by decide) (by decide) (by decide)
    (by decide)

/-- **C8 (amended / corrected).**  The worker emits `stream_complete` on
*every* non-error termination — when the source is exhausted, but equally
when the status check breaks out of the loop (cleanup, or session gone) —
and the `total` it carries is always the full source length, which equals
the number of records this worker processed only in the exhaustion case
(`w.idx = length`); the error path emits `stream_error` and no completion
event; a successful processing step emits exactly one prediction and
advances the worker.  (The original claim — completion iff exhaustion,
with total = records actually processed — is refuted by the
counterexample.) -/
theorem complete_on_all_nonerror_terminations (env : Env) (s : ServerState)
    (i : Nat) (w : WorkerState)
    (hreach : Reachable env s) (hw : s.workers.get? i = some w) :
    (match env.src.get? w.idx, lookupA s.active_streams w.vid with
     | none, _ =>
        w.idx = env.src.length ∧
        (stream_step env s i).events = s.events ++
          [roomEvent "stream_complete" s w.vid none (some env.src.length)] ∧
        lookupA (stream_step env s i).active_streams w.vid = none
     | some _, none =>
        (stream_step env s i).events = s.events ++
          [roomEvent "stream_complete" s w.vid none (some env.src.length)] ∧
        lookupA (stream_step env s i).active_streams w.vid = none
     | some r, some info =>
        if info.status = "cleanup" then
          (stream_step env s i).events = s.events ++
            [roomEvent "stream_complete" s w.vid none (some env.src.length)] ∧
          lookupA (stream_step env s i).active_streams w.vid = none
        else
          match predictDetector env.A (recordDF r) with
          | Except.error _ =>
              (stream_step env s i).events = s.events ++
                [roomEvent "stream_error" s w.vid none none]
          | Except.ok _ =>
              (stream_step env s i).events = s.events ++
                [roomEvent "prediction" s w.vid (some w.idx) none] ∧
              (stream_step env s i).workers =
                s.workers.set i { w with idx := w.idx + 1 }) := by
  have hinv := reachable_inv hreach
  obtain ⟨-, -, -, -, h5⟩ := hinv
  cases hr : env.src.get? w.idx with
  | none =>
    have hidx : w.idx = env.src.length := by
      have hle : w.idx ≤ env.src.length := h5 w (List.get?_mem hw)
      have hge : env.src.length ≤ w.idx := List.get?_eq_none.mp hr
      omega
    have hstep : stream_step env s i = finishComplete env s i w := by
      unfold stream_step
      rw [hw]
      dsimp only
      rw [hr]
    rw [hstep]
    unfold finishComplete
    exact ⟨hidx, rfl, lookupA_reap_self _ _⟩
  | some r =>
    cases hlook : lookupA s.active_streams w.vid with
    | none =>
      have hstep : stream_step env s i = finishComplete env s i w := by
        unfold stream_step
        rw [hw]
        dsimp only
        rw [hr]
        dsimp only
        rw [hlook]
      rw [hstep]
      unfold finishComplete
      exact ⟨rfl, lookupA_reap_self _ _⟩
    | some info =>
      dsimp only
      by_cases hst : info.status = "cleanup"
      · rw [if_pos hst]
        have hstep : stream_step env s i = finishComplete env s i w := by
          unfold stream_step
          rw [hw]
          dsimp only
          rw [hr]
          dsimp only
          rw [hlook]
          dsimp only
          rw [if_pos hst]
        rw [hstep]
        unfold finishComplete
        exact ⟨rfl, lookupA_reap_self _ _⟩
      · rw [if_neg hst]
        cases hp : predictDetector env.A (recordDF r) with
        | error e =>
          have hstep : stream_step env s i = finishError s i w := by
            unfold stream_step
            rw [hw]
            dsimp only
            rw [hr]
            dsimp only
            rw [hlook]
            dsimp only
            rw [if_neg hst, hp]
          rw [hstep]
          unfold finishError
          exact rfl
        | ok res =>
          have hstep : stream_step env s i =
              { s with events := s.events ++ [roomEvent "prediction" s w.vid (some w.idx) none], workers := s.workers.set i { w with idx := w.idx + 1 } } := by
            unfold stream_step
            rw [hw]
            dsimp only
            rw [hr]
            dsimp only
            rw [hlook]
            dsimp only
            rw [if_neg hst, hp]
          rw [hstep]
          exact ⟨rfl, rfl⟩

/-- C8 counterexample to the claim as stated: after 1 of 3 records, the
sole subscriber disconnects (status becomes cleanup); the next worker step
terminates via the status break and *still* emits `stream_complete`, with
`total = 3` — the full source length — although the source was not
exhausted and only one record was processed and emitted. -/
theorem cleanup_break_emits_complete_ce :
    (run streamEnv [Action.join "s1" "v", Action.work 0, Action.disc "s1",
        Action.work 0]).events =
      [directEvent "stream_started" "s1",
       { name := "prediction", room := "v", audience := ["s1"],
         recIdx := some 0, total := none },
       { name := "stream_complete", room := "v", audience := [],
         recIdx := none, total := some 3 }] ∧
    streamEnv.src.length = 3 ∧
    ((run streamEnv [Action.join "s1" "v", Action.work 0, Action.disc "s1",
        Action.work 0]).events.filter (fun ev => ev.name = "prediction")).length
      = 1 := by
  refine ⟨?_, ?_, ?_⟩ <;> decide

/-- Witness for the amended C8 at a concrete reachable state: with an empty
source the first worker step is an exhaustion termination — it emits
`stream_complete` with total 0 = records processed and reclaims the
session. -/
theorem complete_on_all_nonerror_terminations_witness :
    (0 : Nat) = emptySrcEnv.src.length ∧
    (stream_step emptySrcEnv emptyState 0).events = emptyState.events ++
      [roomEvent "stream_complete" emptyState "v" none
        (some emptySrcEnv.src.length)] ∧
    lookupA (stream_step emptySrcEnv emptyState 0).active_streams "v" = none :=
  complete_on_all_nonerror_terminations emptySrcEnv emptyState 0
    { vid := "v", gen := 0, idx := 0 }
    ⟨[Action.join "s1" "v"], rfl⟩ rfl

/-- **C9 (amended / corrected).**  Every worker termination path performs
the reap deletion exactly once — the terminating step's registry is exactly
`reap` of the previous registry, and a non-terminating step leaves the
registry untouched — but `reap` is keyed on the *bare visitor id*: it
removes every session registered under that id regardless of its
generation, so nothing ties the deletion to the session the worker was
started for (see the counterexample). -/
theorem reap_by_visitor_id_once (env : Env) (s : ServerState) (i : Nat)
    (w : WorkerState) (hw : s.workers.get? i = some w) :
    (∀ streams : List (String × StreamInfo), ∀ p ∈ streams, p.1 = w.vid →
        p ∉ reap streams w.vid) ∧
    (match env.src.get? w.idx, lookupA s.active_streams w.vid with
     | none, _ =>
        (stream_step env s i).active_streams = reap s.active_streams w.vid ∧
        (stream_step env s i).workers = s.workers.eraseIdx i
     | some _, none =>
        (stream_step env s i).active_streams = reap s.active_streams w.vid ∧
        (stream_step env s i).workers = s.workers.eraseIdx i
     | some r, some info =>
        if info.status = "cleanup" then
          (stream_step env s i).active_streams = reap s.active_streams w.vid ∧
          (stream_step env s i).workers = s.workers.eraseIdx i
        else
          match predictDetector env.A (recordDF r) with
          | Except.error _ =>
              (stream_step env s i).active_streams = reap s.active_streams w.vid ∧
              (stream_step env s i).workers = s.workers.eraseIdx i
          | Except.ok _ =>
              (stream_step env s i).active_streams = s.active_streams ∧
              (stream_step env s i).workers =
                s.workers.set i { w with idx := w.idx + 1 }) := by
  constructor
  · intro streams p hp hkey hmem
    exact (mem_reap p hmem).2 hkey
  · cases hr : env.src.get? w.idx with
    | none =>
      have hstep : stream_step env s i = finishComplete env s i w := by
        unfold stream_step
        rw [hw]
        dsimp only
        rw [hr]
      rw [hstep]
      exact ⟨rfl, rfl⟩
    | some r =>
      cases hlook : lookupA s.active_streams w.vid with
      | none =>
        have hstep : stream_step env s i = finishComplete env s i w := by
          unfold stream_step
          rw [hw]
          dsimp only
          rw [hr]
          dsimp only
          rw [hlook]
        rw [hstep]
        exact ⟨rfl, rfl⟩
      | some info =>
        dsimp only
        by_cases hst : info.status = "cleanup"
        · rw [if_pos hst]
          have hstep : stream_step env s i = finishComplete env s i w := by
            unfold stream_step
            rw [hw]
            dsimp only
            rw [hr]
            dsimp only
            rw [hlook]
            dsimp only
            rw [if_pos hst]
          rw [hstep]
          exact ⟨rfl, rfl⟩
        · rw [if_neg hst]
          cases hp : predictDetector env.A (recordDF r) with
          | error e =>
            have hstep : stream_step env s i = finishError s i w := by
              unfold stream_step
              rw [hw]
              dsimp only
              rw [hr]
              dsimp only
              rw [hlook]
              dsimp only
              rw [if_neg hst, hp]
            rw [hstep]
            exact ⟨rfl, rfl⟩
          | ok res =>
            have hstep : stream_step env s i =
                { s with events := s.events ++ [roomEvent "prediction" s w.vid (some w.idx) none], workers := s.workers.set i { w with idx := w.idx + 1 } } := by
              unfold stream_step
              rw [hw]
              dsimp only
              rw [hr]
              dsimp only
              rw [hlook]
              dsimp only
              rw [if_neg hst, hp]
            rw [hstep]
            exact ⟨rfl, rfl⟩

/-- C9 counterexample to the claim as stated: a stale generation-1 worker
for `"v"` terminates while the registry holds a *generation-5* session
under the same visitor id; its reap removes that newer session, because
reap keys on the bare visitor id and not on a session handle/generation. -/
theorem reap_removes_newer_generation_ce :
    (stream_step emptySrcEnv newerGenState 0).active_streams = [] ∧
    (lookupA newerGenState.active_streams "v").map StreamInfo.gen = some 5 ∧
    (newerGenState.workers.get? 0).map WorkerState.gen = some 1 ∧
    (5 : Nat) ≠ 1 := by
  refine ⟨?_, ?_, ?_, ?_⟩ <;> decide

/-- Witness for the amended C9 at a concrete reachable state: the
exhaustion termination step's registry is exactly `reap` of the previous
one and the worker is erased. -/
theorem reap_by_visitor_id_once_witness :
    (stream_step emptySrcEnv emptyState 0).active_streams =
      reap emptyState.active_streams "v" ∧
    (stream_step emptySrcEnv emptyState 0).workers =
      emptyState.workers.eraseIdx 0 :=
  (reap_by_visitor_id_once emptySrcEnv emptyState 0
    { vid := "v", gen := 0, idx := 0 } rfl).2

end FraudApp
